import Mathlib

/-!
# Verification of the translation workflow graph

Shallow embedding of the LangGraph-based translation pipeline in
`firstsession/core/translate`: the nine stage functions, the two routers,
and the compiled graph's execution loop, together with proofs of the
spec-level properties (retry-loop termination, forced-PII short-circuit,
label normalization, response projection, retry defaulting, quality-check
bypass, the blocked-run end state, the translate mirror field, the
response frame property on dict states, and idempotence of input
normalization).

Machine strings are modelled as `List Char` (Python `str` is a sequence
of unicode code points); the ASCII-range behaviour of `str.strip`,
`str.upper`, `str.lower` and the `re` character classes is embedded
directly.
-/

namespace Firstsession

/-- ASCII whitespace set of Python `str.strip()` / `str.split()`:
space, tab, newline, carriage return, vertical tab, form feed. -/
def isPyWs (c : Char) : Bool :=
  c == ' ' || c == '\t' || c == '\n' || c == '\r' ||
  c == Char.ofNat 11 || c == Char.ofNat 12

/-- Python `text.strip()` on the underlying character list. -/
def pyStripL (l : List Char) : List Char :=
  ((l.dropWhile isPyWs).reverse.dropWhile isPyWs).reverse

/-- A space or a tab — the character class `[ \t]` of
`NormalizeInputNode._RE_MULTI_SPACE`. -/
def isSpaceTab (c : Char) : Bool := c == ' ' || c == '\t'

/-- `re.sub(r"[ \t]+", " ", ·)`: every maximal run of spaces/tabs is
replaced by a single space.  The boolean argument records whether the
previous character belonged to the current run. -/
def cstAux : Bool → List Char → List Char
  | _, [] => []
  | prev, c :: rest =>
    if isSpaceTab c then
      if prev then cstAux true rest else ' ' :: cstAux true rest
    else c :: cstAux false rest

/-- `re.sub(r"\n{3,}", "\n\n", ·)`: every maximal run of `k ≥ 1`
newlines is emitted as `min k 2` newlines (runs of one or two are kept,
longer runs collapse to exactly two).  The `Nat` argument counts the
newlines of the pending run. -/
def cnlAux : Nat → List Char → List Char
  | k, [] => List.replicate (min k 2) '\n'
  | k, c :: rest =>
    if c == '\n' then cnlAux (k + 1) rest
    else List.replicate (min k 2) '\n' ++ c :: cnlAux 0 rest

/-- `NormalizeInputNode._MAX_TEXT_CHARS`. -/
def maxTextChars : Nat := 10000

/-- The whitespace normalization of `NormalizeInputNode.run` before the
length cap: `strip`, collapse `[ \t]+` to one space, collapse `\n{3,}`
to two newlines. -/
def normalizeCoreL (l : List Char) : List Char :=
  cnlAux 0 (cstAux false (pyStripL l))

/-- Steps 1–2 of `NormalizeInputNode.run` on the text: whitespace
normalization followed by the 10,000-character cap.  Returns the new
text and whether truncation occurred. -/
def normalizeTextL (l : List Char) : List Char × Bool :=
  let t := normalizeCoreL l
  if maxTextChars < t.length then (t.take maxTextChars, true) else (t, false)

/-- String-level wrapper of `pyStripL`. -/
def pyStrip (s : String) : String := ⟨pyStripL s.data⟩

/-- Python `str.upper()` (ASCII case mapping). -/
def pyUpper (s : String) : String := ⟨s.data.map Char.toUpper⟩

/-- Python `str.lower()` (ASCII case mapping). -/
def pyLower (s : String) : String := ⟨s.data.map Char.toLower⟩

/-- Truthiness of an optional string field read off the state:
Python `bool(x)` for `x` a `str` or `None`. -/
def optTruthy : Option String → Bool
  | none => false
  | some s => s ≠ ""

/-! ## The rule-based scanners of `SafeguardClassifyNode`

Each Python `re.compile(...).search(text)` call is embedded as an
executable scanner over the character list.  A scanner returns `true`
exactly when some position of the text starts a match of the pattern
(`re.search` semantics). -/

/-- `\w` of Python `re` (ASCII range): letters, digits, underscore. -/
def isWordChar (c : Char) : Bool := c.isAlpha || c.isDigit || c == '_'

/-- `\b` between the character (if any) preceding the match and the
first matched character: exactly one side is a word character; the
string edge counts as a non-word side. -/
def atBoundary (prev : Option Char) (next : Char) : Bool :=
  isWordChar next != (match prev with | none => false | some p => isWordChar p)

/-- `\b` after a match ending in a word character: the remainder is
empty or starts with a non-word character. -/
def endBoundary : List Char → Bool
  | [] => true
  | c :: _ => !isWordChar c

/-- `\d{n}` as a prefix test. -/
def digitsPre (n : Nat) (l : List Char) : Bool :=
  (l.take n).length == n && (l.take n).all Char.isDigit

/-- A match of `_RE_RRN = \b\d{6}-?\d{7}\b` starting at this position
(`prev` is the character just before the position). -/
def rrnAt (prev : Option Char) (l : List Char) : Bool :=
  match l with
  | [] => false
  | c :: _ =>
    atBoundary prev c && digitsPre 6 l &&
      (let r := l.drop 6
       (digitsPre 7 r && endBoundary (r.drop 7)) ||
       (match r with
        | '-' :: r2 => digitsPre 7 r2 && endBoundary (r2.drop 7)
        | _ => false))

/-- Generic `re.search` driver: try a match at every position. -/
def searchAux (m : Option Char → List Char → Bool) :
    Option Char → List Char → Bool
  | _, [] => false
  | prev, c :: rest => m prev (c :: rest) || searchAux m (some c) rest

/-- `_RE_RRN.search(text)`. -/
def rrnSearchL (l : List Char) : Bool := searchAux rrnAt none l

/-- The local-part class `[A-Z0-9._%+-]` of `_RE_EMAIL` under
`re.IGNORECASE`. -/
def isLocalChar (c : Char) : Bool :=
  c.isAlpha || c.isDigit || c == '.' || c == '_' || c == '%' || c == '+' || c == '-'

/-- The domain class `[A-Z0-9.-]` of `_RE_EMAIL` under `re.IGNORECASE`. -/
def isDomChar (c : Char) : Bool :=
  c.isAlpha || c.isDigit || c == '.' || c == '-'

/-- `[A-Z]{2,}\b` (ignore-case) at this position: at least two letters
and a word boundary after them.  Since any shorter letter run is
followed by a letter (a word character), only the maximal run can be
followed by a boundary. -/
def checkTld (l : List Char) : Bool :=
  let t := l.takeWhile Char.isAlpha
  2 ≤ t.length && endBoundary (l.drop t.length)

/-- `[A-Z0-9.-]+\.[A-Z]{2,}\b` over the part after `@`: some nonempty
domain-class run, then a literal dot, then a valid TLD.  The flag
records whether at least one domain character has been consumed. -/
def domScanAux : List Char → Bool → Bool
  | [], _ => false
  | c :: rest, seen =>
    (seen && c == '.' && checkTld rest) || (isDomChar c && domScanAux rest true)

/-- A match of `_RE_EMAIL = \b[A-Z0-9._%+-]+@[A-Z0-9.-]+\.[A-Z]{2,}\b`
(ignore-case) starting at this position.  The local part must be the
maximal local-class run (its successor must be the literal `@`, which
is not a local character). -/
def emailAt (prev : Option Char) (l : List Char) : Bool :=
  match l with
  | [] => false
  | c :: _ =>
    let loc := l.takeWhile isLocalChar
    !loc.isEmpty && atBoundary prev c &&
      (match l.drop loc.length with
       | '@' :: rest => domScanAux rest false
       | _ => false)

/-- `_RE_EMAIL.search(text)`. -/
def emailSearchL (l : List Char) : Bool := searchAux emailAt none l

/-- `\d{4}\b` — the final group of `_RE_PHONE_KR`. -/
def phoneTail2 (l : List Char) : Bool := digitsPre 4 l && endBoundary (l.drop 4)

/-- `-?\d{4}\b` of `_RE_PHONE_KR`. -/
def phoneTail1 (l : List Char) : Bool :=
  (match l with | '-' :: r => phoneTail2 r | _ => false) || phoneTail2 l

/-- `\d{3,4}-?\d{4}\b` of `_RE_PHONE_KR`. -/
def phoneMid (l : List Char) : Bool :=
  (digitsPre 4 l && phoneTail1 (l.drop 4)) ||
  (digitsPre 3 l && phoneTail1 (l.drop 3))

/-- A match of `_RE_PHONE_KR = \b01[016789]-?\d{3,4}-?\d{4}\b` starting
at this position. -/
def phoneAt (prev : Option Char) (l : List Char) : Bool :=
  match l with
  | a :: b :: c :: rest =>
    a == '0' && b == '1' && atBoundary prev '0' &&
      (c == '0' || c == '1' || c == '6' || c == '7' || c == '8' || c == '9') &&
      ((match rest with | '-' :: r => phoneMid r | _ => false) || phoneMid rest)
  | _ => false

/-- `_RE_PHONE_KR.search(text)`. -/
def phoneSearchL (l : List Char) : Bool := searchAux phoneAt none l

/-- The forced-PII test of `SafeguardClassifyNode.run`:
`_RE_RRN.search(text) or _RE_EMAIL.search(text) or _RE_PHONE_KR.search(text)`. -/
def forcedPiiL (l : List Char) : Bool :=
  rrnSearchL l || emailSearchL l || phoneSearchL l

/-- `_RE_PII_HINT.search(text)`: the alternation of the same three
patterns (RRN shape, email shape, Korean phone shape), so it holds
exactly when one of the three scanners matches. -/
def piiHintSearchL (l : List Char) : Bool :=
  rrnSearchL l || emailSearchL l || phoneSearchL l

/-- Literal-substring search: `pat` occurs (contiguously) in the list.
Used for the alternation literals below, mirroring `re.search` on a
literal alternative. -/
def infixCheck (pat : List Char) : List Char → Bool
  | [] => pat.isEmpty
  | c :: rest => pat.isPrefixOf (c :: rest) || infixCheck pat rest

/-- A run of `\s*` then a literal `:` then `\s*`, used by the
`role\s*:\s*system` alternative; returns the remainder after the
colon's trailing whitespace, or `none` when there is no colon. -/
def afterColonWs (rest : List Char) : Option (List Char) :=
  match rest.dropWhile isPyWs with
  | ':' :: r2 => some (r2.dropWhile isPyWs)
  | _ => none

/-- One alternative of `_RE_PROMPT_INJECTION` matching at this position
of the lower-cased text. -/
def injAt (l : List Char) : Bool :=
  "ignore all instructions".data.isPrefixOf l ||
  "ignore previous instructions".data.isPrefixOf l ||
  "system prompt".data.isPrefixOf l ||
  "developer message".data.isPrefixOf l ||
  ("reveal".data.isPrefixOf l &&
    infixCheck "prompt".data ((l.drop 6).takeWhile (fun c => c != '\n'))) ||
  "jailbreak".data.isPrefixOf l ||
  "do anything now".data.isPrefixOf l ||
  "dan".data.isPrefixOf l ||
  "act as".data.isPrefixOf l ||
  "you are chatgpt".data.isPrefixOf l ||
  "override".data.isPrefixOf l ||
  "bypass".data.isPrefixOf l ||
  ("role".data.isPrefixOf l &&
    (match afterColonWs (l.drop 4) with
     | some r => "system".data.isPrefixOf r
     | none => false)) ||
  (match l with
   | '<' :: r =>
     let r' := r.dropWhile isPyWs
     "system".data.isPrefixOf r' &&
       (match (r'.drop 6).dropWhile isPyWs with
        | '>' :: _ => true
        | _ => false)
   | _ => false)

/-- Position driver for `_RE_PROMPT_INJECTION` (no boundary context
needed: the pattern uses no `\b`). -/
def injSearchAux : List Char → Bool
  | [] => false
  | c :: rest => injAt (c :: rest) || injSearchAux rest

/-- `_RE_PROMPT_INJECTION.search(text)` — `re.IGNORECASE` is embedded
by lower-casing the text; all literal alternatives are lower case
(`DAN` becomes `dan`). -/
def promptInjectionSearchL (l : List Char) : Bool :=
  injSearchAux (l.map Char.toLower)

/-- `_RE_PROFANITY.search(text)`: an alternation of Korean literals
(case-insensitivity does not affect Hangul). -/
def profanitySearchL (l : List Char) : Bool :=
  infixCheck "씨발".data l || infixCheck "시발".data l ||
  infixCheck "ㅅㅂ".data l || infixCheck "좆".data l ||
  infixCheck "병신".data l || infixCheck "개새끼".data l

/-- `_RE_HARMFUL_HINT.search(text)` on the lower-cased text:
`step[- ]by[- ]step` expands into its four literal alternatives. -/
def harmfulHintSearchL (l : List Char) : Bool :=
  let w := l.map Char.toLower
  infixCheck "how to make".data w || infixCheck "how to build".data w ||
  infixCheck "how to create".data w || infixCheck "instructions for".data w ||
  infixCheck "step-by-step".data w || infixCheck "step by step".data w ||
  infixCheck "step-by step".data w || infixCheck "step by-step".data w ||
  infixCheck "bomb".data w || infixCheck "explosive".data w ||
  infixCheck "poison".data w || infixCheck "kill".data w ||
  infixCheck "suicide".data w || infixCheck "harm yourself".data w ||
  infixCheck "credit card fraud".data w || infixCheck "phishing".data w ||
  infixCheck "malware".data w || infixCheck "ransomware".data w

/-! ## Language-code normalization (`NormalizeInputNode`) -/

/-- `[a-z]`. -/
def isLowerAZ (c : Char) : Bool := 'a' ≤ c && c ≤ 'z'

/-- `re.fullmatch(r"[a-z]{2,3}(?:-[A-Za-z]{2,8})?", lang)`.  After the
2–3 leading lower-case letters the next character must be `-` or the
end, so the maximal lower-case run must itself have length 2 or 3. -/
def isLangShape (l : List Char) : Bool :=
  let pre := l.takeWhile isLowerAZ
  (decide (2 ≤ pre.length) && decide (pre.length ≤ 3)) &&
    (match l.drop pre.length with
     | [] => true
     | '-' :: suf =>
       decide (2 ≤ suf.length) && decide (suf.length ≤ 8) && suf.all Char.isAlpha
     | _ => false)

/-- `NormalizeInputNode._LANG_ALIAS`. -/
def langAlias : List (String × String) :=
  [("kr", "ko"), ("kor", "ko"), ("ko-kr", "ko"), ("en-us", "en"),
   ("en-uk", "en"), ("jp", "ja"), ("zh-cn", "zh-Hans"), ("zh-tw", "zh-Hant")]

/-- `self._LANG_ALIAS.get(lang, lang)`. -/
def aliasLookup (s : String) : String :=
  ((langAlias.find? (·.1 == s)).map (·.2)).getD s

/-- `NormalizeInputNode._normalize_lang_code`. -/
def normalizeLangCode : Option String → Option String
  | none => none
  | some lang =>
    if lang == "" then none
    else
      let lang := aliasLookup (pyLower (pyStrip lang))
      if isLangShape lang.data then some lang else none

/-! ## Label / token normalization -/

/-- `SafeguardClassifyNode._ALLOWED`. -/
def allowedLabels : List String := ["PASS", "PII", "HARMFUL", "PROMPT_INJECTION"]

/-- The tail of `^MARKER\s*:\s*`: whitespace, a colon, whitespace;
`none` when the colon is missing (so the regex does not match and the
original string is kept). -/
def afterMarkerColon (rest : List Char) : Option (List Char) := afterColonWs rest

/-- `re.sub(r"^LABEL\s*:\s*", "", s)` for an upper-case `s`. -/
def stripLabelMarker (l : List Char) : List Char :=
  match l with
  | 'L' :: 'A' :: 'B' :: 'E' :: 'L' :: rest =>
    match afterMarkerColon rest with
    | some r => r
    | none => l
  | _ => l

/-- The first lines of `SafeguardClassifyNode._normalize_label`:
`(raw or "").strip().upper()`, strip a leading `LABEL:` marker, strip,
and take the first whitespace-delimited token (`s.split()[0] if s else ""`). -/
def normalizedFirstToken (raw : String) : String :=
  let s := pyStrip ⟨stripLabelMarker (pyUpper (pyStrip raw)).data⟩
  if s == "" then "" else (⟨s.data.takeWhile (fun c => !isPyWs c)⟩ : String)

/-- `SafeguardClassifyNode._normalize_label`. -/
def normalizeLabel (raw : String) (fallback : String) : String :=
  let first := normalizedFirstToken raw
  if allowedLabels.contains first then first
  else if allowedLabels.contains (pyUpper fallback) then pyUpper fallback
  else "PASS"

/-- The backtick character (code point 96). -/
def backtickChar : Char := Char.ofNat 96

/-- Python `s.replace("```", "")`: left-to-right removal of
non-overlapping triple-backtick occurrences. -/
def removeTripleBackticks : List Char → List Char
  | a :: b :: c :: rest =>
    if a == backtickChar && b == backtickChar && c == backtickChar then
      removeTripleBackticks rest
    else a :: removeTripleBackticks (b :: c :: rest)
  | l => l

/-- `re.sub(r"^(ANSWER|LABEL)\s*:\s*", "", s)` for an upper-case `s`. -/
def stripAnswerLabelMarker (l : List Char) : List Char :=
  match l with
  | 'A' :: 'N' :: 'S' :: 'W' :: 'E' :: 'R' :: rest =>
    match afterMarkerColon rest with
    | some r => r
    | none => l
  | 'L' :: 'A' :: 'B' :: 'E' :: 'L' :: rest =>
    match afterMarkerColon rest with
    | some r => r
    | none => l
  | _ => l

/-- `QualityCheckNode._normalize_yes_no` (the fallback argument is
always `"NO"` in the code). -/
def normalizeYesNo (raw : String) (fallback : String) : String :=
  let s := pyUpper (pyStrip raw)
  let s := pyStrip ⟨removeTripleBackticks s.data⟩
  let s := pyStrip ⟨stripAnswerLabelMarker s.data⟩
  let token := if s == "" then "" else (⟨s.data.takeWhile (fun c => !isPyWs c)⟩ : String)
  if token == "YES" || token == "NO" then token else fallback

/-- The apostrophe character (code point 39). -/
def aposChar : Char := Char.ofNat 39

/-- `TranslateNode._strip_wrapping_quotes` /
`RetryTranslateNode._strip_wrapping_quotes`. -/
def stripWrappingQuotesL (l : List Char) : List Char :=
  if 2 ≤ l.length then
    match l.head?, l.getLast? with
    | some a, some b =>
      if (a == '"' && b == '"') || (a == aposChar && b == aposChar) then
        pyStripL (l.drop 1).dropLast
      else l
    | _, _ => l
  else l

/-- The post-processing of a raw translation in `TranslateNode.run` and
`RetryTranslateNode._retry_translate_with_gemini`:
`out.replace("```", "").strip()` then `_strip_wrapping_quotes`. -/
def postprocessTranslation (out : String) : String :=
  ⟨stripWrappingQuotesL (pyStripL (removeTripleBackticks out.data))⟩

/-! ## The state record, the capability boundary and the message catalog -/

/-- The audit entry appended by `SafeguardFailResponseNode.run`:
`{"event": ..., "label": ..., "text_len": ...}`. -/
structure AuditEntry where
  event : String
  label : String
  textLen : Nat
deriving DecidableEq, Repr

/-- Modelled from the spec: the `TranslationState` record.  The module
`core/translate/state/translation_state.py` is not under `src/`; the
fields and their types are taken from the spec's §3 State Record table
together with the fields the stage code reads and writes
(`has_sensitive_hint`, `blocked_reason`, `audit_log`).  Fields the
table marks "or absent" — and every field a stage may find unset — are
`Option`-typed with `none` for absent/`None`. -/
structure TranslationState where
  text : Option String := none
  source_language : Option String := none
  target_language : Option String := none
  warning_message : Option String := none
  has_sensitive_hint : Bool := false
  safeguard_label : Option String := none
  safeguard_passed : Option Bool := none
  error_message : Option String := none
  translated_text : Option String := none
  last_translation : Option String := none
  qc_passed : Option String := none
  qc_reason : Option String := none
  retry_count : Option Int := none
  max_retry_count : Option Int := none
  retry_allowed : Option Bool := none
  retry_reason : Option String := none
  status : Option String := none
  success : Option Bool := none
  blocked_reason : Option String := none
  audit_log : Option AuditEntry := none
deriving DecidableEq, Repr

/-- The external Generative Capability (spec §2, §6), as response
streams indexed by the number of capability invocations made so far in
the run.  `respond n` is the extracted text payload
(`_extract_text(resp)`) of the `n`-th `invoke`; `detect n` is the value
`NormalizeInputNode._detect_language` computes from the `n`-th response
(the parsed `language` field, or `none` when parsing or invocation
fails — the JSON handling lives at this external boundary, and the run
theorems quantify over every `Option String` outcome, a superset of
its behaviours). -/
structure Capability where
  detect : Nat → Option String
  respond : Nat → String

/-- Python `x or d` for an optional string `x`: the default is used
when the field is absent (`None`) or the empty string. -/
def orDefault (o : Option String) (d : String) : String :=
  if optTruthy o then o.getD "" else d

/-- Modelled from the spec: `SafeguardMessage.PII.value`.  The catalog
module `core/translate/const/safeguard_messages.py` is not under
`src/`; per spec §6 it is a fixed mapping from each non-PASS label to a
user-facing message string. -/
def piiMessage : String := "Blocked: the input contains personal information."

/-- Modelled from the spec: `SafeguardMessage.HARMFUL.value`. -/
def harmfulMessage : String := "Blocked: the input contains harmful content."

/-- Modelled from the spec: `SafeguardMessage.PROMPT_INJECTION.value`. -/
def promptInjectionMessage : String := "Blocked: the input attempts prompt injection."

/-- Modelled from the spec: `SafeguardMessage.GENERAL.value`, the
generic fallback message for unrecognized labels. -/
def generalMessage : String := "Blocked: the input cannot be translated."

/-- `SafeguardDecisionNode._map_label_to_message` and
`SafeguardFailResponseNode._fallback_message` (the same mapping with
the GENERAL default). -/
def mapLabelToMessage (label : String) : String :=
  if label == "PII" then piiMessage
  else if label == "HARMFUL" then harmfulMessage
  else if label == "PROMPT_INJECTION" then promptInjectionMessage
  else generalMessage

/-! ## The nine stage functions -/

/-- `NormalizeInputNode.run`: whitespace-normalize and cap the text
(with a truncation warning), normalize both language codes, and
best-effort detect `source_language` when absent and the text is
nonempty.  Returns the new state and updated capability-call count. -/
def normalizeRun (cap : Capability) (n : Nat) (st : TranslationState) :
    TranslationState × Nat :=
  let tr := normalizeTextL (st.text.getD "").data
  let st1 :=
    if tr.2 then
      { st with warning_message := some "Input text truncated by max length rule." }
    else st
  let src0 := normalizeLangCode st.source_language
  let tgt0 := normalizeLangCode st.target_language
  let dres : Option String × Nat :=
    if src0 = none ∧ tr.1 ≠ [] then
      let detected := normalizeLangCode (cap.detect n)
      (if optTruthy detected then detected else src0, n + 1)
    else (src0, n)
  ({ st1 with text := some ⟨tr.1⟩, source_language := dres.1,
              target_language := tgt0 }, dres.2)

/-- `SafeguardClassifyNode._rule_based_label`. -/
def ruleBasedLabel (text : List Char) (sensitiveHint : Bool) : Option String :=
  if promptInjectionSearchL text then some "PROMPT_INJECTION"
  else if profanitySearchL text then some "HARMFUL"
  else if harmfulHintSearchL text then some "HARMFUL"
  else if sensitiveHint || piiHintSearchL text then some "PII"
  else none

/-- `SafeguardClassifyNode.run`: empty text passes; forced PII patterns
short-circuit to PII; clear injection/harmful rules short-circuit;
otherwise the generative fallback's response is normalized with the
rule hint as prior. -/
def safeguardClassifyRun (cap : Capability) (n : Nat) (st : TranslationState) :
    TranslationState × Nat :=
  let text := (st.text.getD "").data
  if pyStripL text = [] then ({ st with safeguard_label := some "PASS" }, n)
  else if forcedPiiL text then ({ st with safeguard_label := some "PII" }, n)
  else
    let rule := ruleBasedLabel text st.has_sensitive_hint
    if rule = some "PROMPT_INJECTION" ∨ rule = some "HARMFUL" then
      ({ st with safeguard_label := rule }, n)
    else
      let raw := pyStrip (cap.respond n)
      let label := normalizeLabel raw (orDefault rule "PASS")
      ({ st with safeguard_label := some label }, n + 1)

/-- `SafeguardDecisionNode.run`. -/
def safeguardDecisionRun (st : TranslationState) : TranslationState :=
  let label := pyStrip (orDefault st.safeguard_label "PASS")
  if label == "PASS" then
    { st with safeguard_passed := some true, error_message := none }
  else
    { st with safeguard_passed := some false,
              error_message := some (mapLabelToMessage label) }

/-- `SafeguardFailResponseNode.run`.  On the attribute-bearing state
record each `_set_if_exists` call stores into its first candidate field
(`translated_text`, `status`, `blocked_reason`, `audit_log`), which the
record possesses. -/
def safeguardFailRun (st : TranslationState) : TranslationState :=
  let label := pyStrip (orDefault st.safeguard_label "UNKNOWN")
  let passed := st.safeguard_passed.getD false
  if passed || label == "PASS" then st
  else
    let msg :=
      if optTruthy st.error_message then st.error_message.getD ""
      else mapLabelToMessage label
    { st with translated_text := some msg, status := some "BLOCKED",
              blocked_reason := some label,
              audit_log := some ⟨"SAFEGUARD_BLOCK", label,
                                 (st.text.getD "").data.length⟩ }

/-- `TranslateNode.run`: empty input yields an empty translation;
otherwise the capability's response is post-processed and written to
both `translated_text` and `last_translation`. -/
def translateRun (cap : Capability) (n : Nat) (st : TranslationState) :
    TranslationState × Nat :=
  if pyStripL (st.text.getD "").data = [] then
    ({ st with translated_text := some "" }, n)
  else
    let translated := postprocessTranslation (cap.respond n)
    ({ st with translated_text := some translated,
               last_translation := some translated }, n + 1)

/-- `RetryTranslateNode.run`: increments `retry_count` first, then
behaves like the translate stage (with the retry prompt). -/
def retryTranslateRun (cap : Capability) (n : Nat) (st : TranslationState) :
    TranslationState × Nat :=
  let st1 := { st with retry_count := some (st.retry_count.getD 0 + 1) }
  if pyStripL (st.text.getD "").data = [] then
    ({ st1 with translated_text := some "" }, n)
  else
    let improved := postprocessTranslation (cap.respond n)
    ({ st1 with translated_text := some improved,
                last_translation := some improved }, n + 1)

/-- `QualityCheckNode.run`: empty source text passes immediately; an
empty translation of nonempty text fails with reason
`empty_translation`; otherwise the capability's YES/NO judgment is
normalized (fallback NO). -/
def qualityCheckRun (cap : Capability) (n : Nat) (st : TranslationState) :
    TranslationState × Nat :=
  if pyStripL (st.text.getD "").data = [] then
    ({ st with qc_passed := some "YES" }, n)
  else if pyStripL (st.translated_text.getD "").data = [] then
    ({ st with qc_passed := some "NO", qc_reason := some "empty_translation" }, n)
  else
    let yn := normalizeYesNo (pyStrip (cap.respond n)) "NO"
    ({ st with qc_passed := some yn,
               qc_reason := if yn == "YES" then none else some "qc_failed" }, n + 1)

/-- `RetryGateNode.run`: records the retry decision (the branch itself
is Router B's job), defaulting `max_retry_count` to 1 and persisting
the default when it was absent or ≤ 0. -/
def retryGateRun (st : TranslationState) : TranslationState :=
  let qc := pyUpper (pyStrip (orDefault st.qc_passed "NO"))
  let retryCount := st.retry_count.getD 0
  let maxRetry0 := st.max_retry_count.getD 0
  let maxRetry := if maxRetry0 ≤ 0 then 1 else maxRetry0
  let st1 :=
    if maxRetry0 ≤ 0 then { st with max_retry_count := some 1 } else st
  if qc == "YES" then
    { st1 with retry_allowed := some false, retry_reason := none }
  else if retryCount < maxRetry then
    { st1 with retry_allowed := some true,
               retry_reason := some "qc_failed_retry_available" }
  else
    { st1 with retry_allowed := some false,
               retry_reason := some "max_retry_reached" }

/-- `ResponseNode.run` on the attribute-bearing state record (the
field-pruning branch applies only to dict states; see
`responseRunDict`). -/
def responseRun (st : TranslationState) : TranslationState :=
  if optTruthy st.error_message then
    { st with translated_text := some (st.error_message.getD ""),
              status := some "ERROR", success := some false }
  else
    { st with translated_text := some (st.translated_text.getD ""),
              status := some "OK", success := some true }

/-! ## The graph: routers, step relation, bounded execution -/

/-- `route_after_safeguard` in `TranslateGraph._build_graph`. -/
def routeAfterSafeguard (st : TranslationState) : String :=
  let label := pyStrip (orDefault st.safeguard_label "PASS")
  if label == "PASS" then "translate" else "safeguard_fail"

/-- `route_after_retry_gate` in `TranslateGraph._build_graph` (Router
B): YES ends the loop; otherwise retry while `retry_count` is below the
(defaulted-to-1) `max_retry_count`. -/
def routeAfterRetryGate (st : TranslationState) : String :=
  let qc := pyUpper (pyStrip (orDefault st.qc_passed "NO"))
  if qc == "YES" then "response"
  else
    let retryCount := st.retry_count.getD 0
    let maxRetry0 := st.max_retry_count.getD 0
    let maxRetry := if maxRetry0 ≤ 0 then 1 else maxRetry0
    if retryCount < maxRetry then "retry_translate" else "response"

/-- The graph's node names (plus the END sentinel). -/
inductive NodeTag
  | normalize | safeguardClassify | safeguardDecision | safeguardFail
  | translate | qualityCheck | retryGate | retryTranslate | response
  | endNode
deriving DecidableEq, Repr

/-- A point of the execution: current node, state record, and the
number of capability calls made so far. -/
structure GState where
  node : NodeTag
  s : TranslationState
  calls : Nat
deriving Repr

/-- One transition of the compiled graph: run the current node and
follow its fixed or router-selected edge
(`TranslateGraph._build_graph`). -/
def step (cap : Capability) (gs : GState) : GState :=
  match gs.node with
  | .normalize =>
    let r := normalizeRun cap gs.calls gs.s
    ⟨.safeguardClassify, r.1, r.2⟩
  | .safeguardClassify =>
    let r := safeguardClassifyRun cap gs.calls gs.s
    ⟨.safeguardDecision, r.1, r.2⟩
  | .safeguardDecision =>
    let s' := safeguardDecisionRun gs.s
    ⟨if routeAfterSafeguard s' == "translate" then .translate
      else .safeguardFail, s', gs.calls⟩
  | .safeguardFail => ⟨.response, safeguardFailRun gs.s, gs.calls⟩
  | .translate =>
    let r := translateRun cap gs.calls gs.s
    ⟨.qualityCheck, r.1, r.2⟩
  | .qualityCheck =>
    let r := qualityCheckRun cap gs.calls gs.s
    ⟨.retryGate, r.1, r.2⟩
  | .retryGate =>
    let s' := retryGateRun gs.s
    ⟨if routeAfterRetryGate s' == "retry_translate" then .retryTranslate
      else .response, s', gs.calls⟩
  | .retryTranslate =>
    let r := retryTranslateRun cap gs.calls gs.s
    ⟨.qualityCheck, r.1, r.2⟩
  | .response => ⟨.endNode, responseRun gs.s, gs.calls⟩
  | .endNode => gs

/-- Fuel-bounded execution collecting the list of visited (executed)
nodes; stops at END. -/
def runTrace (cap : Capability) : Nat → GState → List NodeTag × GState
  | 0, gs => ([], gs)
  | fuel + 1, gs =>
    if gs.node = .endNode then ([], gs)
    else
      let r := runTrace cap fuel (step cap gs)
      (gs.node :: r.1, r.2)

/-- The entry point `START -> normalize` with zero capability calls. -/
def initGState (st : TranslationState) : GState := ⟨.normalize, st, 0⟩

/-- The effective retry bound of a state: `max_retry_count`, defaulted
to 1 when absent or ≤ 0 (exactly as Router B and the retry gate compute
it). -/
def effMaxI (st : TranslationState) : Int :=
  let m := st.max_retry_count.getD 0
  if m ≤ 0 then 1 else m

/-- A fuel amount sufficient for any run from `st` (proved below). -/
def graphFuel (st : TranslationState) : Nat := 10 + 3 * (effMaxI st).toNat

/-- `TranslateGraph.run`: the full run of the compiled graph, with its
visited-node trace. -/
def runGraph (cap : Capability) (st : TranslationState) : List NodeTag × GState :=
  runTrace cap (graphFuel st) (initGState st)

/-! ## The dict-shaped state for the `ResponseNode` pruning branch -/

/-- Python values stored in a dict-shaped state record. -/
inductive Val where
  | str : String → Val
  | int : Int → Val
  | bool : Bool → Val
  | null : Val
deriving DecidableEq, Repr

/-- Python truthiness of a stored value. -/
def truthyVal : Val → Bool
  | .str s => s ≠ ""
  | .int n => n ≠ 0
  | .bool b => b
  | .null => false

/-- Python `str(·)` of a stored value. -/
def pyStr : Val → String
  | .str s => s
  | .int n => toString n
  | .bool b => if b then "True" else "False"
  | .null => "None"

/-- A dict-shaped state record: association list with unique keys kept
in insertion order. -/
abbrev StateDict := List (String × Val)

/-- `state.get(key)` (default `None`). -/
def dictGet : StateDict → String → Option Val
  | [], _ => none
  | (k', v) :: rest, k => if k' == k then some v else dictGet rest k

/-- `state[key] = v`: update in place, or append a new key. -/
def dictSet : StateDict → String → Val → StateDict
  | [], k, v => [(k, v)]
  | (k', v') :: rest, k, v =>
    if k' == k then (k, v) :: rest else (k', v') :: dictSet rest k v

/-- The retained keys of the pruning branch of `ResponseNode.run`. -/
def keepKeys : List String :=
  ["translated_text", "status", "success", "safeguard_label", "qc_passed",
   "retry_count"]

/-- `ResponseNode.run` on a dict state: the error path writes the three
outcome fields and returns; the success path writes them and then prunes
every key outside the retained set. -/
def responseRunDict (st : StateDict) : StateDict :=
  let errorMessage := dictGet st "error_message"
  let translatedText := (dictGet st "translated_text").getD (Val.str "")
  if (errorMessage.map truthyVal).getD false then
    let st := dictSet st "translated_text" (Val.str (pyStr (errorMessage.getD Val.null)))
    let st := dictSet st "status" (Val.str "ERROR")
    dictSet st "success" (Val.bool false)
  else
    let tt := if truthyVal translatedText then pyStr translatedText else ""
    let st := dictSet st "translated_text" (Val.str tt)
    let st := dictSet st "status" (Val.str "OK")
    let st := dictSet st "success" (Val.bool true)
    st.filter (fun p => keepKeys.contains p.1)

/-! ## Basic lemmas about the dict operations -/

/-- Reading after writing: the written key returns the new value, any
other key is unchanged. -/
theorem dictGet_dictSet (st : StateDict) (k k' : String) (v : Val) :
    dictGet (dictSet st k v) k' =
      if k == k' then some v else dictGet st k' := by
  induction st with
  | nil => simp [dictGet, dictSet]
  | cons p rest ih =>
    obtain ⟨k0, v0⟩ := p
    by_cases h0 : k0 = k
    · subst h0
      by_cases h1 : k0 = k'
      · subst h1; simp [dictGet, dictSet]
      · simp [dictGet, dictSet, h1]
    · by_cases h1 : k0 = k'
      · subst h1
        have hkk' : ¬ k = k0 := fun hh => h0 hh.symm
        simp [dictGet, dictSet, h0, hkk']
      · simp [dictGet, dictSet, h0, h1, ih]

/-! ## C4: the Response stage projection -/

/-- **C4.** For every state entering the Response stage: if
`error_message` is present and truthy, the stage overwrites
`translated_text` with it, sets `status = ERROR`, `success = false`;
otherwise it sets `status = OK`, `success = true` and coerces
`translated_text` to a string, with `""` when absent or falsy. -/
theorem response_projection (st : TranslationState) :
    (optTruthy st.error_message = true →
      responseRun st =
        { st with translated_text := some (st.error_message.getD ""),
                  status := some "ERROR", success := some false }) ∧
    (optTruthy st.error_message = false →
      responseRun st =
        { st with translated_text := some (st.translated_text.getD ""),
                  status := some "OK", success := some true }) := by
  constructor <;> intro h <;> simp [responseRun, h]

/-- Witness for C4: both branches at concrete states. -/
theorem response_projection_witness :
    responseRun { error_message := some "boom" } =
      { error_message := some "boom", translated_text := some "boom",
        status := some "ERROR", success := some false } ∧
    responseRun { translated_text := some "hi" } =
      { translated_text := some "hi", status := some "OK",
        success := some true } :=
  ⟨(response_projection { error_message := some "boom" }).1 (by decide),
   (response_projection { translated_text := some "hi" }).2 (by decide)⟩

/-! ## C5: defaulting of the retry bound -/

/-- **C5.** For every state whose `max_retry_count` is absent, zero or
negative when first read, Router B routes with effective bound 1
(retry exactly when QC did not pass and `retry_count < 1`), and the
retry-gate stage persists the default `1` into the state. -/
theorem retry_default_bound (st : TranslationState)
    (h : st.max_retry_count.getD 0 ≤ 0) :
    routeAfterRetryGate st =
      (if pyUpper (pyStrip (orDefault st.qc_passed "NO")) == "YES" then
        "response"
       else if st.retry_count.getD 0 < 1 then "retry_translate"
       else "response") ∧
    (retryGateRun st).max_retry_count = some 1 := by
  constructor
  · simp only [routeAfterRetryGate]
    rw [if_pos h]
  · simp only [retryGateRun]
    rw [if_pos h, if_pos h]
    split
    · rfl
    · split <;> rfl

/-- Witness for C5 at a state with absent `max_retry_count`. -/
theorem retry_default_bound_witness :
    routeAfterRetryGate { retry_count := some 0 } = "retry_translate" ∧
    (retryGateRun { retry_count := some 0 }).max_retry_count = some 1 := by
  have h := retry_default_bound { retry_count := some 0 } (by decide)
  exact ⟨by rw [h.1]; decide, h.2⟩

/-! ## C6: the quality-check bypass rules -/

/-- **C6.** For every state entering the QualityCheck stage: empty or
whitespace-only `text` yields an immediate YES without a capability
call; nonempty `text` with empty/whitespace `translated_text` yields an
immediate NO with reason `empty_translation`, again without a
capability call (the call counter is unchanged and the result does not
depend on the capability). -/
theorem quality_check_bypass (cap : Capability) (n : Nat)
    (st : TranslationState) :
    (pyStripL (st.text.getD "").data = [] →
      qualityCheckRun cap n st = ({ st with qc_passed := some "YES" }, n)) ∧
    (pyStripL (st.text.getD "").data ≠ [] →
      pyStripL (st.translated_text.getD "").data = [] →
      qualityCheckRun cap n st =
        ({ st with qc_passed := some "NO",
                   qc_reason := some "empty_translation" }, n)) := by
  constructor
  · intro h
    simp [qualityCheckRun, h]
  · intro h1 h2
    simp [qualityCheckRun, h1, h2]

/-- Witness for C6: both bypass branches at concrete states. -/
theorem quality_check_bypass_witness :
    qualityCheckRun ⟨fun _ => none, fun _ => "YES"⟩ 0 { text := some " \t " } =
      ({ text := some " \t ", qc_passed := some "YES" }, 0) ∧
    qualityCheckRun ⟨fun _ => none, fun _ => "YES"⟩ 0
        { text := some "hi", translated_text := some " " } =
      ({ text := some "hi", translated_text := some " ",
         qc_passed := some "NO", qc_reason := some "empty_translation" }, 0) :=
  ⟨(quality_check_bypass _ 0 _).1 (by decide),
   (quality_check_bypass _ 0 _).2 (by decide) (by decide)⟩

/-! ## C9: the frame property of the Response error path on dict states -/

/-- **C9.** On a dict-shaped state whose `error_message` is truthy, the
Response stage modifies only `translated_text`, `status` and `success`:
every other key keeps its prior binding, and no key is deleted (the
pruning of unretained fields happens only on the success path). -/
theorem response_error_frame (st : StateDict)
    (h : ((dictGet st "error_message").map truthyVal).getD false = true) :
    (∀ k, k ≠ "translated_text" → k ≠ "status" → k ≠ "success" →
        dictGet (responseRunDict st) k = dictGet st k) ∧
    (∀ k v, dictGet st k = some v →
        (dictGet (responseRunDict st) k).isSome = true) := by
  have hrun : responseRunDict st =
      dictSet (dictSet (dictSet st "translated_text"
        (Val.str (pyStr ((dictGet st "error_message").getD Val.null))))
        "status" (Val.str "ERROR")) "success" (Val.bool false) := by
    simp only [responseRunDict, h, if_true]
  constructor
  · intro k h1 h2 h3
    have e1 : ("translated_text" == k) = false :=
      beq_eq_false_iff_ne.mpr (Ne.symm h1)
    have e2 : ("status" == k) = false := beq_eq_false_iff_ne.mpr (Ne.symm h2)
    have e3 : ("success" == k) = false := beq_eq_false_iff_ne.mpr (Ne.symm h3)
    rw [hrun, dictGet_dictSet, dictGet_dictSet, dictGet_dictSet, e1, e2, e3]
    rfl
  · intro k v hv
    rw [hrun, dictGet_dictSet, dictGet_dictSet, dictGet_dictSet]
    by_cases h3 : "success" = k
    · simp [h3]
    · by_cases h2 : "status" = k
      · simp [h2, beq_eq_false_iff_ne.mpr h3]
      · by_cases h1 : "translated_text" = k
        · simp [h1, beq_eq_false_iff_ne.mpr h3, beq_eq_false_iff_ne.mpr h2]
        · simp [beq_eq_false_iff_ne.mpr h3, beq_eq_false_iff_ne.mpr h2,
                beq_eq_false_iff_ne.mpr h1, hv]

/-- The head of a `dropWhile` output fails the dropped predicate. -/
theorem head?_dropWhile_not (p : Char → Bool) :
    ∀ (l : List Char) (c : Char), (l.dropWhile p).head? = some c →
      p c = false := by
  intro l
  induction l with
  | nil => intro c h; simp [List.dropWhile] at h
  | cons a t ih =>
    intro c h
    by_cases hp : p a = true
    · rw [List.dropWhile_cons, if_pos hp] at h; exact ih c h
    · rw [List.dropWhile_cons, if_neg hp] at h
      simp only [List.head?_cons, Option.some.injEq] at h
      subst h
      simpa using hp

/-- `dropWhile` keeps the last element when its output is nonempty. -/
theorem getLast?_dropWhile (p : Char → Bool) (l : List Char)
    (h : l.dropWhile p ≠ []) : (l.dropWhile p).getLast? = l.getLast? := by
  conv_rhs => rw [← List.takeWhile_append_dropWhile (p := p) (l := l)]
  rw [List.getLast?_append_of_ne_nil _ h]

/-! ## C1: the retry loop terminates within the retry budget

The loop measure is `budget`: the (defaulted) retry bound minus the
current retry count.  Only the retry-translate stage changes
`retry_count` (by exactly +1), and Router B enters it only while the
count is below the bound. -/

/-- The current `retry_count` of a state, as the code reads it
(`int(get(.., 0) or 0)`). -/
def rcI (st : TranslationState) : Int := st.retry_count.getD 0

/-- Remaining retry budget. -/
def budget (st : TranslationState) : Nat := (effMaxI st - rcI st).toNat

/-- Invariant carried through the run: when control is at the
retry-translate node, the retry count is below the effective bound
(Router B guarantees this on entry). -/
def good (gs : GState) : Prop :=
  gs.node = NodeTag.retryTranslate → rcI gs.s < effMaxI gs.s

/-- `retry_count` visits of each node in the remaining run, for fuel
accounting. -/
def nodeWeight : NodeTag → Nat
  | .normalize => 8
  | .safeguardClassify => 7
  | .safeguardDecision => 6
  | .safeguardFail => 2
  | .translate => 5
  | .qualityCheck => 4
  | .retryGate => 3
  | .retryTranslate => 2
  | .response => 1
  | .endNode => 0

/-- The number of retry-translate executions recorded in a trace. -/
def countRT (tr : List NodeTag) : Nat := tr.count .retryTranslate

/-- The normalize stage does not touch the retry fields. -/
theorem normalizeRun_frame (cap : Capability) (n : Nat)
    (st : TranslationState) :
    (normalizeRun cap n st).1.retry_count = st.retry_count ∧
    (normalizeRun cap n st).1.max_retry_count = st.max_retry_count := by
  constructor <;> simp only [normalizeRun] <;> split <;> rfl

/-- The classify stage does not touch the retry fields. -/
theorem classifyRun_frame (cap : Capability) (n : Nat)
    (st : TranslationState) :
    (safeguardClassifyRun cap n st).1.retry_count = st.retry_count ∧
    (safeguardClassifyRun cap n st).1.max_retry_count = st.max_retry_count := by
  constructor <;>
  · simp only [safeguardClassifyRun]
    split
    · rfl
    · split
      · rfl
      · split <;> rfl

/-- The decision stage does not touch the retry fields. -/
theorem decisionRun_frame (st : TranslationState) :
    (safeguardDecisionRun st).retry_count = st.retry_count ∧
    (safeguardDecisionRun st).max_retry_count = st.max_retry_count := by
  constructor <;> simp only [safeguardDecisionRun] <;> split <;> rfl

/-- The fail-response stage does not touch the retry fields. -/
theorem failRun_frame (st : TranslationState) :
    (safeguardFailRun st).retry_count = st.retry_count ∧
    (safeguardFailRun st).max_retry_count = st.max_retry_count := by
  constructor <;> simp only [safeguardFailRun] <;> split <;> rfl

/-- The translate stage does not touch the retry fields. -/
theorem translateRun_frame (cap : Capability) (n : Nat)
    (st : TranslationState) :
    (translateRun cap n st).1.retry_count = st.retry_count ∧
    (translateRun cap n st).1.max_retry_count = st.max_retry_count := by
  constructor <;> simp only [translateRun] <;> split <;> rfl

/-- The quality-check stage does not touch the retry fields. -/
theorem qcRun_frame (cap : Capability) (n : Nat) (st : TranslationState) :
    (qualityCheckRun cap n st).1.retry_count = st.retry_count ∧
    (qualityCheckRun cap n st).1.max_retry_count = st.max_retry_count := by
  constructor <;>
  · simp only [qualityCheckRun]
    split
    · rfl
    · split <;> rfl

/-- The response stage does not touch the retry fields. -/
theorem responseRun_frame (st : TranslationState) :
    (responseRun st).retry_count = st.retry_count ∧
    (responseRun st).max_retry_count = st.max_retry_count := by
  constructor <;> simp only [responseRun] <;> split <;> rfl

/-- The retry gate preserves `retry_count` and the effective bound (it
only persists the default). -/
theorem retryGateRun_frame (st : TranslationState) :
    (retryGateRun st).retry_count = st.retry_count ∧
    effMaxI (retryGateRun st) = effMaxI st := by
  have hmax : (retryGateRun st).max_retry_count =
      (if st.max_retry_count.getD 0 ≤ 0 then some 1 else st.max_retry_count) := by
    simp only [retryGateRun]
    split
    · split <;> simp_all
    · split
      · split <;> simp_all
      · split <;> simp_all
  constructor
  · simp only [retryGateRun]
    split
    · split <;> rfl
    · split
      · split <;> rfl
      · split <;> rfl
  · simp only [effMaxI, hmax]
    split
    · simp
    · rfl

/-- The retry-translate stage increments `retry_count` by exactly one
and preserves the bound. -/
theorem retryTranslateRun_frame (cap : Capability) (n : Nat)
    (st : TranslationState) :
    (retryTranslateRun cap n st).1.retry_count = some (rcI st + 1) ∧
    (retryTranslateRun cap n st).1.max_retry_count = st.max_retry_count := by
  constructor <;> simp only [retryTranslateRun, rcI] <;> split <;> rfl

/-- The budget only depends on the two retry fields. -/
theorem budget_congr {s s' : TranslationState}
    (h1 : s'.retry_count = s.retry_count)
    (h2 : s'.max_retry_count = s.max_retry_count) : budget s' = budget s := by
  simp [budget, effMaxI, rcI, h1, h2]

/-- Router B sends control to retry-translate only while the retry
count is below the effective bound. -/
theorem route_retry_lt (s : TranslationState)
    (h : routeAfterRetryGate s = "retry_translate") : rcI s < effMaxI s := by
  simp only [routeAfterRetryGate] at h
  by_cases hqc : (pyUpper (pyStrip (orDefault s.qc_passed "NO")) == "YES") = true
  · rw [if_pos hqc] at h; exact absurd h (by decide)
  · rw [if_neg hqc] at h
    by_cases hlt : s.retry_count.getD 0 <
        (if s.max_retry_count.getD 0 ≤ 0 then (1 : Int)
         else s.max_retry_count.getD 0)
    · simpa [rcI, effMaxI] using hlt
    · rw [if_neg hlt] at h; exact absurd h (by decide)

/-- Step equation at the normalize node. -/
theorem step_normalize (cap : Capability) (s : TranslationState) (calls : Nat) :
    step cap ⟨NodeTag.normalize, s, calls⟩ =
      ⟨NodeTag.safeguardClassify, (normalizeRun cap calls s).1,
        (normalizeRun cap calls s).2⟩ := rfl

/-- Step equation at the classify node. -/
theorem step_classify (cap : Capability) (s : TranslationState) (calls : Nat) :
    step cap ⟨NodeTag.safeguardClassify, s, calls⟩ =
      ⟨NodeTag.safeguardDecision, (safeguardClassifyRun cap calls s).1,
        (safeguardClassifyRun cap calls s).2⟩ := rfl

/-- Step equation at the decision node (Router A). -/
theorem step_decision (cap : Capability) (s : TranslationState) (calls : Nat) :
    step cap ⟨NodeTag.safeguardDecision, s, calls⟩ =
      ⟨if routeAfterSafeguard (safeguardDecisionRun s) == "translate" then
          NodeTag.translate else NodeTag.safeguardFail,
        safeguardDecisionRun s, calls⟩ := rfl

/-- Step equation at the fail-response node. -/
theorem step_fail (cap : Capability) (s : TranslationState) (calls : Nat) :
    step cap ⟨NodeTag.safeguardFail, s, calls⟩ =
      ⟨NodeTag.response, safeguardFailRun s, calls⟩ := rfl

/-- Step equation at the translate node. -/
theorem step_translate (cap : Capability) (s : TranslationState) (calls : Nat) :
    step cap ⟨NodeTag.translate, s, calls⟩ =
      ⟨NodeTag.qualityCheck, (translateRun cap calls s).1,
        (translateRun cap calls s).2⟩ := rfl

/-- Step equation at the quality-check node. -/
theorem step_qc (cap : Capability) (s : TranslationState) (calls : Nat) :
    step cap ⟨NodeTag.qualityCheck, s, calls⟩ =
      ⟨NodeTag.retryGate, (qualityCheckRun cap calls s).1,
        (qualityCheckRun cap calls s).2⟩ := rfl

/-- Step equation at the retry-gate node (Router B). -/
theorem step_gate (cap : Capability) (s : TranslationState) (calls : Nat) :
    step cap ⟨NodeTag.retryGate, s, calls⟩ =
      ⟨if routeAfterRetryGate (retryGateRun s) == "retry_translate" then
          NodeTag.retryTranslate else NodeTag.response,
        retryGateRun s, calls⟩ := rfl

/-- Step equation at the retry-translate node. -/
theorem step_rt (cap : Capability) (s : TranslationState) (calls : Nat) :
    step cap ⟨NodeTag.retryTranslate, s, calls⟩ =
      ⟨NodeTag.qualityCheck, (retryTranslateRun cap calls s).1,
        (retryTranslateRun cap calls s).2⟩ := rfl

/-- Step equation at the response node. -/
theorem step_response (cap : Capability) (s : TranslationState) (calls : Nat) :
    step cap ⟨NodeTag.response, s, calls⟩ =
      ⟨NodeTag.endNode, responseRun s, calls⟩ := rfl

/-- One successor step that is not a retry-translate execution and
preserves the budget keeps the trace count within the budget. -/
theorem count_step_aux (cap : Capability) (fuel : Nat)
    (ih : ∀ gs : GState, good gs →
      countRT (runTrace cap fuel gs).1 ≤ budget gs.s)
    (gs : GState) (hne : gs.node ≠ NodeTag.retryTranslate)
    (hgood2 : good (step cap gs))
    (hb : budget (step cap gs).s = budget gs.s) :
    countRT (runTrace cap (fuel + 1) gs).1 ≤ budget gs.s := by
  rw [runTrace]
  by_cases hend : gs.node = NodeTag.endNode
  · rw [if_pos hend]; simp [countRT]
  · rw [if_neg hend]
    have h2 := ih (step cap gs) hgood2
    rw [hb] at h2
    simpa [countRT, List.count_cons, beq_eq_false_iff_ne.mpr hne] using h2

/-- Projection of an explicit graph configuration: current node. -/
theorem node_mk (n : NodeTag) (st : TranslationState) (c : Nat) :
    (⟨n, st, c⟩ : GState).node = n := rfl

/-- Projection of an explicit graph configuration: state record. -/
theorem s_mk (n : NodeTag) (st : TranslationState) (c : Nat) :
    (⟨n, st, c⟩ : GState).s = st := rfl

/-- The retry-translate stage is executed at most `budget` times in any
run from a good configuration. -/
theorem countRT_runTrace (cap : Capability) :
    ∀ (fuel : Nat) (gs : GState), good gs →
      countRT (runTrace cap fuel gs).1 ≤ budget gs.s := by
  intro fuel
  induction fuel with
  | zero => intro gs _; simp [runTrace, countRT]
  | succ fuel ih =>
    rintro ⟨nd, s, calls⟩ hgood
    cases nd with
    | endNode =>
      rw [runTrace, if_pos rfl]
      simp [countRT]
    | normalize =>
      refine count_step_aux cap fuel ih ⟨NodeTag.normalize, s, calls⟩
        (by simp) ?_ ?_
      · intro hh; rw [step_normalize, node_mk] at hh; simp at hh
      · simp only [step_normalize, node_mk, s_mk]
        exact budget_congr (normalizeRun_frame cap calls s).1
          (normalizeRun_frame cap calls s).2
    | safeguardClassify =>
      refine count_step_aux cap fuel ih ⟨NodeTag.safeguardClassify, s, calls⟩
        (by simp) ?_ ?_
      · intro hh; rw [step_classify, node_mk] at hh; simp at hh
      · simp only [step_classify, node_mk, s_mk]
        exact budget_congr (classifyRun_frame cap calls s).1
          (classifyRun_frame cap calls s).2
    | safeguardDecision =>
      refine count_step_aux cap fuel ih ⟨NodeTag.safeguardDecision, s, calls⟩
        (by simp) ?_ ?_
      · intro hh
        rw [step_decision, node_mk] at hh
        split at hh <;> simp at hh
      · simp only [step_decision, node_mk, s_mk]
        exact budget_congr (decisionRun_frame s).1 (decisionRun_frame s).2
    | safeguardFail =>
      refine count_step_aux cap fuel ih ⟨NodeTag.safeguardFail, s, calls⟩
        (by simp) ?_ ?_
      · intro hh; rw [step_fail, node_mk] at hh; simp at hh
      · simp only [step_fail, node_mk, s_mk]
        exact budget_congr (failRun_frame s).1 (failRun_frame s).2
    | translate =>
      refine count_step_aux cap fuel ih ⟨NodeTag.translate, s, calls⟩
        (by simp) ?_ ?_
      · intro hh; rw [step_translate, node_mk] at hh; simp at hh
      · simp only [step_translate, node_mk, s_mk]
        exact budget_congr (translateRun_frame cap calls s).1
          (translateRun_frame cap calls s).2
    | qualityCheck =>
      refine count_step_aux cap fuel ih ⟨NodeTag.qualityCheck, s, calls⟩
        (by simp) ?_ ?_
      · intro hh; rw [step_qc, node_mk] at hh; simp at hh
      · simp only [step_qc, node_mk, s_mk]
        exact budget_congr (qcRun_frame cap calls s).1
          (qcRun_frame cap calls s).2
    | response =>
      refine count_step_aux cap fuel ih ⟨NodeTag.response, s, calls⟩
        (by simp) ?_ ?_
      · intro hh; rw [step_response, node_mk] at hh; simp at hh
      · simp only [step_response, node_mk, s_mk]
        exact budget_congr (responseRun_frame s).1 (responseRun_frame s).2
    | retryGate =>
      refine count_step_aux cap fuel ih ⟨NodeTag.retryGate, s, calls⟩
        (by simp) ?_ ?_
      · intro hh
        rw [step_gate, node_mk] at hh
        by_cases hr : (routeAfterRetryGate (retryGateRun s) ==
            "retry_translate") = true
        · simp only [step_gate, node_mk, s_mk]
          exact route_retry_lt (retryGateRun s) (by simpa using hr)
        · rw [if_neg hr] at hh
          simp at hh
      · simp only [step_gate, node_mk, s_mk]
        simp [budget, rcI, (retryGateRun_frame s).1, (retryGateRun_frame s).2]
    | retryTranslate =>
      have hlt : rcI s < effMaxI s := hgood rfl
      rw [runTrace, if_neg (by simp)]
      have h2 := ih (step cap ⟨NodeTag.retryTranslate, s, calls⟩)
        (by intro hh; rw [step_rt, node_mk] at hh; simp at hh)
      rw [step_rt, s_mk] at h2
      have h1 : rcI (retryTranslateRun cap calls s).1 = rcI s + 1 := by
        simp [rcI, (retryTranslateRun_frame cap calls s).1]
      have hE : effMaxI (retryTranslateRun cap calls s).1 = effMaxI s := by
        simp [effMaxI, (retryTranslateRun_frame cap calls s).2]
      have hb : budget (retryTranslateRun cap calls s).1 + 1 = budget s := by
        simp only [budget, h1, hE]
        omega
      simp only [step_rt, node_mk, s_mk]
      simp only [countRT, List.count_cons] at h2 ⊢
      simp only [beq_self_eq_true, if_true]
      omega

/-- With fuel at least three times the budget plus the node weight, the
run reaches END. -/
theorem runTrace_halts (cap : Capability) :
    ∀ (fuel : Nat) (gs : GState), good gs →
      3 * budget gs.s + nodeWeight gs.node ≤ fuel →
      (runTrace cap fuel gs).2.node = NodeTag.endNode := by
  intro fuel
  induction fuel with
  | zero =>
    rintro ⟨nd, s, calls⟩ _ hle
    cases nd <;> first
      | (rfl)
      | (simp only [nodeWeight] at hle; exact absurd hle (by omega))
  | succ fuel ih =>
    rintro ⟨nd, s, calls⟩ hgood hle
    simp only [node_mk, s_mk] at hle
    cases nd with
    | endNode => rw [runTrace, if_pos rfl]
    | normalize =>
      rw [runTrace, if_neg (by simp)]
      refine ih _ ?_ ?_
      · intro hh; rw [step_normalize, node_mk] at hh; simp at hh
      · simp only [step_normalize, node_mk, s_mk]
        rw [budget_congr (normalizeRun_frame cap calls s).1
          (normalizeRun_frame cap calls s).2]
        simp only [nodeWeight] at hle ⊢
        omega
    | safeguardClassify =>
      rw [runTrace, if_neg (by simp)]
      refine ih _ ?_ ?_
      · intro hh; rw [step_classify, node_mk] at hh; simp at hh
      · simp only [step_classify, node_mk, s_mk]
        rw [budget_congr (classifyRun_frame cap calls s).1
          (classifyRun_frame cap calls s).2]
        simp only [nodeWeight] at hle ⊢
        omega
    | safeguardDecision =>
      rw [runTrace, if_neg (by simp)]
      refine ih _ ?_ ?_
      · intro hh
        rw [step_decision, node_mk] at hh
        split at hh <;> simp at hh
      · simp only [step_decision, node_mk, s_mk]
        rw [budget_congr (decisionRun_frame s).1 (decisionRun_frame s).2]
        simp only [nodeWeight] at hle
        split <;> simp only [nodeWeight] <;> omega
    | safeguardFail =>
      rw [runTrace, if_neg (by simp)]
      refine ih _ ?_ ?_
      · intro hh; rw [step_fail, node_mk] at hh; simp at hh
      · simp only [step_fail, node_mk, s_mk]
        rw [budget_congr (failRun_frame s).1 (failRun_frame s).2]
        simp only [nodeWeight] at hle ⊢
        omega
    | translate =>
      rw [runTrace, if_neg (by simp)]
      refine ih _ ?_ ?_
      · intro hh; rw [step_translate, node_mk] at hh; simp at hh
      · simp only [step_translate, node_mk, s_mk]
        rw [budget_congr (translateRun_frame cap calls s).1
          (translateRun_frame cap calls s).2]
        simp only [nodeWeight] at hle ⊢
        omega
    | qualityCheck =>
      rw [runTrace, if_neg (by simp)]
      refine ih _ ?_ ?_
      · intro hh; rw [step_qc, node_mk] at hh; simp at hh
      · simp only [step_qc, node_mk, s_mk]
        rw [budget_congr (qcRun_frame cap calls s).1
          (qcRun_frame cap calls s).2]
        simp only [nodeWeight] at hle ⊢
        omega
    | response =>
      rw [runTrace, if_neg (by simp)]
      refine ih _ ?_ ?_
      · intro hh; rw [step_response, node_mk] at hh; simp at hh
      · simp only [step_response, node_mk, s_mk]
        rw [budget_congr (responseRun_frame s).1 (responseRun_frame s).2]
        simp only [nodeWeight] at hle ⊢
        omega
    | retryGate =>
      rw [runTrace, if_neg (by simp)]
      have hb : budget (retryGateRun s) = budget s := by
        simp [budget, rcI, (retryGateRun_frame s).1, (retryGateRun_frame s).2]
      refine ih _ ?_ ?_
      · intro hh
        rw [step_gate, node_mk] at hh
        by_cases hr : (routeAfterRetryGate (retryGateRun s) ==
            "retry_translate") = true
        · simp only [step_gate, node_mk, s_mk]
          exact route_retry_lt (retryGateRun s) (by simpa using hr)
        · rw [if_neg hr] at hh
          simp at hh
      · simp only [step_gate, node_mk, s_mk]
        rw [hb]
        simp only [nodeWeight] at hle
        split <;> simp only [nodeWeight] <;> omega
    | retryTranslate =>
      rw [runTrace, if_neg (by simp)]
      have hlt : rcI s < effMaxI s := hgood rfl
      have h1 : rcI (retryTranslateRun cap calls s).1 = rcI s + 1 := by
        simp [rcI, (retryTranslateRun_frame cap calls s).1]
      have hE : effMaxI (retryTranslateRun cap calls s).1 = effMaxI s := by
        simp [effMaxI, (retryTranslateRun_frame cap calls s).2]
      have hb : budget (retryTranslateRun cap calls s).1 + 1 = budget s := by
        simp only [budget, h1, hE]
        omega
      refine ih _ ?_ ?_
      · intro hh; rw [step_rt, node_mk] at hh; simp at hh
      · simp only [step_rt, node_mk, s_mk]
        simp only [nodeWeight] at hle ⊢
        omega

/-- A fixed trivial capability used by concrete witnesses. -/
def capW : Capability := ⟨fun _ => none, fun _ => ""⟩

/-- **C1.** For every run of the workflow graph (any capability
behaviour, any initial state with a non-negative retry count): the
retry-translate stage executes at most `max_retry_count` times — with
the bound read as the state's effective (defaulted-to-1-when-≤0)
value — the run terminates at END, each retry-translate execution
increments `retry_count` by exactly 1 and re-enters the quality check,
and Router B selects retry-translate only while
`retry_count < max_retry_count`. -/
theorem retry_loop_bound (cap : Capability) (st : TranslationState)
    (h : 0 ≤ rcI st) :
    (∀ fuel, countRT (runTrace cap fuel (initGState st)).1 ≤
      (effMaxI st).toNat) ∧
    (runTrace cap (graphFuel st) (initGState st)).2.node =
      NodeTag.endNode ∧
    (∀ (s : TranslationState) (calls : Nat),
      (step cap ⟨NodeTag.retryTranslate, s, calls⟩).s.retry_count =
        some (rcI s + 1) ∧
      (step cap ⟨NodeTag.retryTranslate, s, calls⟩).node =
        NodeTag.qualityCheck) ∧
    (∀ s : TranslationState, routeAfterRetryGate s = "retry_translate" →
      rcI s < effMaxI s) := by
  have hgood : good (initGState st) := by
    intro hh
    rw [show (initGState st).node = NodeTag.normalize from rfl] at hh
    simp at hh
  have hbud : budget st ≤ (effMaxI st).toNat := by
    simp only [budget]
    omega
  refine ⟨?_, ?_, ?_, ?_⟩
  · intro fuel
    have hc := countRT_runTrace cap fuel (initGState st) hgood
    exact le_trans (by simpa [initGState] using hc) hbud
  · apply runTrace_halts cap _ _ hgood
    show 3 * budget st + nodeWeight NodeTag.normalize ≤ graphFuel st
    simp only [nodeWeight, graphFuel]
    omega
  · intro s calls
    exact ⟨by rw [step_rt, s_mk, (retryTranslateRun_frame cap calls s).1],
           by rw [step_rt, node_mk]⟩
  · exact route_retry_lt

/-- Witness for C1 at a concrete initial state with retry budget 2. -/
theorem retry_loop_bound_witness :
    countRT (runTrace capW 20 (initGState
      { retry_count := some 0, max_retry_count := some 2 })).1 ≤ 2 ∧
    (runTrace capW
      (graphFuel { retry_count := some 0, max_retry_count := some 2 })
      (initGState
        { retry_count := some 0, max_retry_count := some 2 })).2.node =
      NodeTag.endNode := by
  have h := retry_loop_bound capW
    { retry_count := some 0, max_retry_count := some 2 } (by decide)
  refine ⟨?_, h.2.1⟩
  have hc := h.1 20
  simpa [effMaxI] using hc

/-! ## C7: runs whose normalized text carries a PII email token

A text containing `user@example.com` (not followed by a word character)
matches the forced email pattern: word characters immediately before
the token are all local-part characters, so a match starts at the head
of that word run, whose predecessor is a non-word character or the
start of the text. -/

/-- The character list of the email token. -/
theorem emailToken_eq : "user@example.com".data =
    'u' :: 's' :: 'e' :: 'r' :: '@' :: 'e' :: 'x' :: 'a' :: 'm' :: 'p' ::
    'l' :: 'e' :: '.' :: 'c' :: 'o' :: 'm' :: [] := rfl

/-- `takeWhile` passes over a prefix all of whose elements satisfy the
predicate. -/
theorem takeWhile_append_all (p : Char → Bool) :
    ∀ (A B : List Char), (∀ a ∈ A, p a = true) →
      (A ++ B).takeWhile p = A ++ B.takeWhile p := by
  intro A
  induction A with
  | nil => intro B _; simp
  | cons a A' ih =>
    intro B hall
    rw [List.cons_append, List.takeWhile_cons, if_pos (hall a (by simp)),
        ih B (fun x hx => hall x (by simp [hx])), List.cons_append]

/-- Shifting the context character when peeling the first list element
off the searched prefix. -/
theorem lastOr_shift (a : Char) (l : List Char) (prev : Option Char) :
    l.getLast?.or (some a) = (a :: l).getLast?.or prev := by
  cases l with
  | nil => simp
  | cons b t =>
    rw [List.getLast?_cons_cons]
    have hs : (b :: t).getLast?.isSome = true := by
      rw [List.getLast?_isSome]; simp
    obtain ⟨z, hz⟩ := Option.isSome_iff_exists.mp hs
    rw [hz]
    rfl

/-- A successful match at an interior position implies a successful
search. -/
theorem searchAux_of_match (m : Option Char → List Char → Bool) :
    ∀ (l1 l2 : List Char) (prev : Option Char), l2 ≠ [] →
      m (l1.getLast?.or prev) l2 = true →
      searchAux m prev (l1 ++ l2) = true := by
  intro l1
  induction l1 with
  | nil =>
    intro l2 prev hne hm
    cases l2 with
    | nil => exact absurd rfl hne
    | cons c rest =>
      rw [List.nil_append, searchAux]
      rw [List.getLast?_nil, Option.none_or] at hm
      simp [hm]
  | cons a l1' ih =>
    intro l2 prev hne hm
    rw [List.cons_append, searchAux, Bool.or_eq_true]
    right
    apply ih l2 (some a) hne
    rw [lastOr_shift a l1' prev]
    exact hm

/-- One-step equation for `domScanAux` on a cons cell. -/
theorem domScanAux_cons (c : Char) (rest : List Char) (seen : Bool) :
    domScanAux (c :: rest) seen =
      ((seen && c == '.' && checkTld rest) ||
        (isDomChar c && domScanAux rest true)) := rfl

/-- A domain run followed by a dot and a valid TLD makes the domain
scan succeed. -/
theorem domScan_construct : ∀ (d rest : List Char) (seen : Bool),
    d ≠ [] → (∀ c ∈ d, isDomChar c = true) → checkTld rest = true →
    domScanAux (d ++ '.' :: rest) seen = true := by
  intro d
  induction d with
  | nil => intro rest seen hne _ _; exact absurd rfl hne
  | cons c d' ih =>
    intro rest seen hne hall htld
    rw [List.cons_append, domScanAux_cons, Bool.or_eq_true]
    right
    rw [Bool.and_eq_true]
    refine ⟨hall c (by simp), ?_⟩
    cases d' with
    | nil =>
      rw [List.nil_append, domScanAux_cons, Bool.or_eq_true]
      left
      simp [htld]
    | cons e d'' =>
      exact ih rest true (by simp) (fun x hx => hall x (by simp [hx])) htld

/-- Word characters are email local-part characters. -/
theorem word_local {c : Char} (h : isWordChar c = true) :
    isLocalChar c = true := by
  simp only [isWordChar, Bool.or_eq_true] at h
  rcases h with (h | h) | h <;> simp [isLocalChar, h]

/-- A word boundary holds before a word character whose predecessor is
absent or a non-word character. -/
theorem atBoundary_word (prevv : Option Char) (w : Char)
    (hw : isWordChar w = true)
    (hp : ∀ p, prevv = some p → isWordChar p = false) :
    atBoundary prevv w = true := by
  cases prevv with
  | none => simp [atBoundary, hw]
  | some p => simp [atBoundary, hw, hp p rfl]

/-- `com` followed by a non-word character (or the end) is a valid TLD
position. -/
theorem checkTld_com (post : List Char)
    (hpost : ∀ c, post.head? = some c → isWordChar c = false) :
    checkTld ('c' :: 'o' :: 'm' :: post) = true := by
  cases post with
  | nil => decide
  | cons c p' =>
    have hw : isWordChar c = false := hpost c rfl
    have ha : c.isAlpha = false := by
      cases hx : c.isAlpha
      · rfl
      · exfalso
        rw [show isWordChar c = true from by simp [isWordChar, hx]] at hw
        exact Bool.true_eq_false.mp hw
    simp only [checkTld]
    rw [List.takeWhile_cons, if_pos (by decide), List.takeWhile_cons,
        if_pos (by decide), List.takeWhile_cons, if_pos (by decide),
        List.takeWhile_cons, if_neg (by simp [ha])]
    simp [endBoundary, hw]

/-- The tail of the token after `@` passes the domain scan. -/
theorem email_tail_match (post : List Char)
    (hpost : ∀ c, post.head? = some c → isWordChar c = false) :
    domScanAux ('e' :: 'x' :: 'a' :: 'm' :: 'p' :: 'l' :: 'e' :: '.' ::
      'c' :: 'o' :: 'm' :: post) false = true := by
  have h := domScan_construct ('e' :: 'x' :: 'a' :: 'm' :: 'p' :: 'l' ::
      'e' :: []) ('c' :: 'o' :: 'm' :: post) false (by simp) (by decide)
    (checkTld_com post hpost)
  simpa using h

/-- One-step equation for `emailAt` on a cons cell. -/
theorem emailAt_cons (prev : Option Char) (c : Char) (t : List Char) :
    emailAt prev (c :: t) =
      (!((c :: t).takeWhile isLocalChar).isEmpty && atBoundary prev c &&
        (match (c :: t).drop ((c :: t).takeWhile isLocalChar).length with
         | '@' :: rest => domScanAux rest false
         | _ => false)) := rfl

/-- The local part of the token stops exactly at `@`. -/
theorem takeWhile_local_token (B : List Char) :
    List.takeWhile isLocalChar ('u' :: 's' :: 'e' :: 'r' :: '@' :: B) =
      ['u', 's', 'e', 'r'] := by
  rw [List.takeWhile_cons, if_pos (by decide), List.takeWhile_cons,
      if_pos (by decide), List.takeWhile_cons, if_pos (by decide),
      List.takeWhile_cons, if_pos (by decide), List.takeWhile_cons,
      if_neg (by decide)]

/-- A match of the email pattern at the head of a word run placed
immediately before the token. -/
theorem email_at_with_run (prevv : Option Char) (run post : List Char)
    (hrun : ∀ c ∈ run, isWordChar c = true)
    (hprev : ∀ p, prevv = some p → isWordChar p = false)
    (hpost : ∀ c, post.head? = some c → isWordChar c = false) :
    emailAt prevv (run ++ ("user@example.com".data ++ post)) = true := by
  have htokpost : "user@example.com".data ++ post =
      'u' :: 's' :: 'e' :: 'r' :: '@' :: 'e' :: 'x' :: 'a' :: 'm' :: 'p' ::
      'l' :: 'e' :: '.' :: 'c' :: 'o' :: 'm' :: post := by
    simp [emailToken_eq]
  cases run with
  | nil =>
    rw [List.nil_append, htokpost, emailAt_cons, takeWhile_local_token,
        atBoundary_word prevv 'u' (by decide) hprev]
    rw [show ('u' :: 's' :: 'e' :: 'r' :: '@' :: 'e' :: 'x' :: 'a' :: 'm' ::
        'p' :: 'l' :: 'e' :: '.' :: 'c' :: 'o' :: 'm' :: post).drop
        (['u', 's', 'e', 'r'] : List Char).length = '@' :: 'e' :: 'x' ::
        'a' :: 'm' :: 'p' :: 'l' :: 'e' :: '.' :: 'c' :: 'o' :: 'm' :: post
        from rfl]
    simpa using email_tail_match post hpost
  | cons c0 r' =>
    rw [htokpost, List.cons_append, emailAt_cons]
    have hback : c0 :: (r' ++ ('u' :: 's' :: 'e' :: 'r' :: '@' :: 'e' ::
        'x' :: 'a' :: 'm' :: 'p' :: 'l' :: 'e' :: '.' :: 'c' :: 'o' ::
        'm' :: post)) = (c0 :: r') ++ ('u' :: 's' :: 'e' :: 'r' :: '@' ::
        'e' :: 'x' :: 'a' :: 'm' :: 'p' :: 'l' :: 'e' :: '.' :: 'c' ::
        'o' :: 'm' :: post) := (List.cons_append _ _ _).symm
    have hloc : ((c0 :: r') ++ ('u' :: 's' :: 'e' :: 'r' :: '@' :: 'e' ::
        'x' :: 'a' :: 'm' :: 'p' :: 'l' :: 'e' :: '.' :: 'c' :: 'o' ::
        'm' :: post)).takeWhile isLocalChar =
        (c0 :: r') ++ ['u', 's', 'e', 'r'] := by
      rw [takeWhile_append_all isLocalChar (c0 :: r') _
          (fun a ha => word_local (hrun a ha)), takeWhile_local_token]
    have hdrop : ((c0 :: r') ++ ('u' :: 's' :: 'e' :: 'r' :: '@' :: 'e' ::
        'x' :: 'a' :: 'm' :: 'p' :: 'l' :: 'e' :: '.' :: 'c' :: 'o' ::
        'm' :: post)).drop
        (((c0 :: r') ++ ['u', 's', 'e', 'r'] : List Char)).length =
        '@' :: 'e' :: 'x' :: 'a' :: 'm' :: 'p' :: 'l' :: 'e' :: '.' ::
        'c' :: 'o' :: 'm' :: post := by
      rw [show (c0 :: r') ++ ('u' :: 's' :: 'e' :: 'r' :: '@' :: 'e' ::
          'x' :: 'a' :: 'm' :: 'p' :: 'l' :: 'e' :: '.' :: 'c' :: 'o' ::
          'm' :: post) = ((c0 :: r') ++ ['u', 's', 'e', 'r']) ++
          ('@' :: 'e' :: 'x' :: 'a' :: 'm' :: 'p' :: 'l' :: 'e' :: '.' ::
          'c' :: 'o' :: 'm' :: post) from by simp]
      exact List.drop_left _ _
    rw [hback, hloc, hdrop,
        atBoundary_word prevv c0 (hrun c0 (by simp)) hprev]
    simpa using email_tail_match post hpost

/-- Any text containing the email token not followed by a word
character matches the email scanner. -/
theorem email_token_match (pre post : List Char)
    (hpost : ∀ c, post.head? = some c → isWordChar c = false) :
    emailSearchL (pre ++ ("user@example.com".data ++ post)) = true := by
  have hsplit : pre = (pre.reverse.dropWhile isWordChar).reverse ++
      (pre.reverse.takeWhile isWordChar).reverse := by
    rw [← List.reverse_append, List.takeWhile_append_dropWhile,
        List.reverse_reverse]
  rw [emailSearchL, hsplit, List.append_assoc]
  apply searchAux_of_match emailAt _ _ none
  · rw [emailToken_eq]
    cases (pre.reverse.takeWhile isWordChar).reverse <;> simp
  · rw [Option.or_none]
    apply email_at_with_run
    · intro c hc
      exact List.mem_takeWhile_imp (List.mem_reverse.mp hc)
    · intro p hp
      rw [List.getLast?_reverse] at hp
      exact head?_dropWhile_not _ _ _ hp
    · exact hpost

/-- Witness for C9 at a concrete dict state with an extra field. -/
theorem response_error_frame_witness :
    dictGet (responseRunDict
        [("error_message", Val.str "x"), ("qc_reason", Val.str "r")])
        "qc_reason" =
      dictGet [("error_message", Val.str "x"), ("qc_reason", Val.str "r")]
        "qc_reason" :=
  (response_error_frame _ (by decide)).1 "qc_reason" (by decide) (by decide)
    (by decide)

/-! ## Forced-PII helpers: a forced match implies a nonempty stripped text -/

/-- A successful search yields a matching suffix position. -/
theorem searchAux_exists (m : Option Char → List Char → Bool) :
    ∀ (l : List Char) (prev : Option Char), searchAux m prev l = true →
      ∃ prev' l', l' <:+ l ∧ m prev' l' = true := by
  intro l
  induction l with
  | nil => intro prev h; simp [searchAux] at h
  | cons c rest ih =>
    intro prev h
    rw [searchAux, Bool.or_eq_true] at h
    rcases h with h | h
    · exact ⟨prev, c :: rest, List.suffix_refl _, h⟩
    · obtain ⟨p', l', hs, hm⟩ := ih (some c) h
      exact ⟨p', l', hs.trans (List.suffix_cons c rest), hm⟩

/-- Local-class characters of the email pattern are not whitespace. -/
theorem isLocalChar_not_ws {c : Char} (h : isLocalChar c = true) :
    isPyWs c = false := by
  cases hw : isPyWs c
  · rfl
  · exfalso
    simp only [isPyWs, Bool.or_eq_true, beq_iff_eq] at hw
    rcases hw with ((((h1 | h1) | h1) | h1) | h1) | h1 <;> subst h1 <;>
      exact absurd h (by decide)

/-- Digits are not whitespace. -/
theorem isDigit_not_ws {c : Char} (h : c.isDigit = true) : isPyWs c = false := by
  cases hw : isPyWs c
  · rfl
  · exfalso
    simp only [isPyWs, Bool.or_eq_true, beq_iff_eq] at hw
    rcases hw with ((((h1 | h1) | h1) | h1) | h1) | h1 <;> subst h1 <;>
      exact absurd h (by decide)

/-- A text matching one of the three forced-PII patterns contains a
non-whitespace character. -/
theorem mem_not_ws_of_forced {l : List Char} (h : forcedPiiL l = true) :
    ∃ c ∈ l, isPyWs c = false := by
  simp only [forcedPiiL, Bool.or_eq_true] at h
  rcases h with (h | h) | h
  · obtain ⟨p', l', hs, hm⟩ := searchAux_exists rrnAt l none h
    cases l' with
    | nil => simp [rrnAt] at hm
    | cons c t =>
      simp only [rrnAt, Bool.and_eq_true] at hm
      have hd : c.isDigit = true := by
        have h6 := hm.1.2
        simp only [digitsPre, Bool.and_eq_true, List.all_eq_true] at h6
        exact h6.2 c (by simp [List.take_succ_cons])
      exact ⟨c, hs.mem (by simp), isDigit_not_ws hd⟩
  · obtain ⟨p', l', hs, hm⟩ := searchAux_exists emailAt l none h
    cases l' with
    | nil => simp [emailAt] at hm
    | cons c t =>
      cases hc : isLocalChar c
      · simp [emailAt, List.takeWhile_cons, hc] at hm
      · exact ⟨c, hs.mem (by simp), isLocalChar_not_ws hc⟩
  · obtain ⟨p', l', hs, hm⟩ := searchAux_exists phoneAt l none h
    rcases l' with _ | ⟨a, _ | ⟨b, _ | ⟨c2, rest⟩⟩⟩
    · simp [phoneAt] at hm
    · simp [phoneAt] at hm
    · simp [phoneAt] at hm
    · simp only [phoneAt, Bool.and_eq_true, beq_iff_eq] at hm
      have ha : a = '0' := hm.1.1.1.1
      subst ha
      exact ⟨'0', hs.mem (by simp), by decide⟩

/-- A text matching one of the forced-PII patterns does not strip to
the empty list. -/
theorem strip_ne_nil_of_forced {l : List Char} (h : forcedPiiL l = true) :
    pyStripL l ≠ [] := by
  obtain ⟨c, hc, hw⟩ := mem_not_ws_of_forced h
  intro hstrip
  simp only [pyStripL] at hstrip
  rw [List.reverse_eq_nil_iff, List.dropWhile_eq_nil_iff] at hstrip
  have hall : ∀ x ∈ l, isPyWs x = true := by
    intro x hx
    rw [← List.takeWhile_append_dropWhile (p := isPyWs) (l := l)] at hx
    rcases List.mem_append.1 hx with hx1 | hx2
    · exact List.mem_takeWhile_imp hx1
    · exact hstrip x (List.mem_reverse.2 hx2)
  rw [hall c hc] at hw
  exact Bool.true_eq_false.mp hw

/-- The forced-PII branch of the classify stage: when one of the three
forced patterns matches the text, the stage writes label PII and makes
no capability call, leaving everything else untouched (shared by C2 and
the blocked-run theorem). -/
theorem classify_forced (cap : Capability) (n : Nat) (st : TranslationState)
    (h : forcedPiiL (st.text.getD "").data = true) :
    safeguardClassifyRun cap n st =
      ({ st with safeguard_label := some "PII" }, n) := by
  have hne := strip_ne_nil_of_forced h
  simp only [safeguardClassifyRun]
  rw [if_neg hne, if_pos h]

/-! ## C2: forced-PII short-circuit -/

/-- **C2.** For every state whose text matches a forced-PII pattern
(the 6+7-digit RRN shape, the email shape, or the local phone shape),
the classify stage sets `safeguard_label` to PII immediately: the
result does not depend on the capability (no fallback call is made, the
call counter is unchanged) and holds for every state, including those
whose text also matches the injection or harmful rules. -/
theorem forced_pii_short_circuit (cap : Capability) (n : Nat)
    (st : TranslationState)
    (h : rrnSearchL (st.text.getD "").data = true ∨
         emailSearchL (st.text.getD "").data = true ∨
         phoneSearchL (st.text.getD "").data = true) :
    safeguardClassifyRun cap n st =
      ({ st with safeguard_label := some "PII" }, n) := by
  apply classify_forced
  rcases h with h | h | h <;> simp [forcedPiiL, h]

/-- Witness for C2: an email-shaped text that also matches the
prompt-injection rule (`override`), classified PII without a call. -/
theorem forced_pii_short_circuit_witness :
    safeguardClassifyRun capW 0 { text := some "override a@b.co" } =
      ({ text := some "override a@b.co", safeguard_label := some "PII" }, 0) :=
  forced_pii_short_circuit capW 0 _ (Or.inr (Or.inl (by decide)))

/-! ## C3: the label is always one of the four values -/

/-- `_normalize_label` only ever returns one of the four allowed
labels. -/
theorem normalizeLabel_mem (raw fb : String) :
    normalizeLabel raw fb = "PASS" ∨ normalizeLabel raw fb = "PII" ∨
    normalizeLabel raw fb = "HARMFUL" ∨
    normalizeLabel raw fb = "PROMPT_INJECTION" := by
  simp only [normalizeLabel]
  by_cases h1 : allowedLabels.contains (normalizedFirstToken raw) = true
  · rw [if_pos h1]
    rw [List.elem_iff] at h1
    simp only [allowedLabels, List.mem_cons, List.mem_singleton] at h1
    tauto
  · rw [if_neg h1]
    by_cases h2 : allowedLabels.contains (pyUpper fb) = true
    · rw [if_pos h2]
      rw [List.elem_iff] at h2
      simp only [allowedLabels, List.mem_cons, List.mem_singleton] at h2
      tauto
    · rw [if_neg h2]; left; rfl

/-- **C3.** The classify stage always writes exactly one of
PASS/PII/HARMFUL/PROMPT_INJECTION into `safeguard_label`; and for every
fallback response whose normalized first token is outside the four
values, normalization yields the rule prior when one exists, else
PASS. -/
theorem classify_label_in_enum (cap : Capability) (n : Nat)
    (st : TranslationState) :
    ((safeguardClassifyRun cap n st).1.safeguard_label = some "PASS" ∨
     (safeguardClassifyRun cap n st).1.safeguard_label = some "PII" ∨
     (safeguardClassifyRun cap n st).1.safeguard_label = some "HARMFUL" ∨
     (safeguardClassifyRun cap n st).1.safeguard_label =
       some "PROMPT_INJECTION") ∧
    (∀ (raw : String) (prior : Option String),
        (prior = none ∨ prior = some "PII") →
        allowedLabels.contains (normalizedFirstToken raw) = false →
        normalizeLabel raw (orDefault prior "PASS") = prior.getD "PASS") := by
  constructor
  · simp only [safeguardClassifyRun]
    by_cases h1 : pyStripL (st.text.getD "").data = []
    · rw [if_pos h1]; left; rfl
    · rw [if_neg h1]
      by_cases h2 : forcedPiiL (st.text.getD "").data = true
      · rw [if_pos h2]; right; left; rfl
      · rw [if_neg h2]
        by_cases h3 :
            ruleBasedLabel (st.text.getD "").data st.has_sensitive_hint =
              some "PROMPT_INJECTION" ∨
            ruleBasedLabel (st.text.getD "").data st.has_sensitive_hint =
              some "HARMFUL"
        · rw [if_pos h3]
          rcases h3 with h3 | h3 <;> rw [h3]
          · right; right; right; rfl
          · right; right; left; rfl
        · rw [if_neg h3]
          rcases normalizeLabel_mem (pyStrip (cap.respond n))
              (orDefault (ruleBasedLabel (st.text.getD "").data
                st.has_sensitive_hint) "PASS") with h | h | h | h <;>
            simp [h]
  · intro raw prior hp hcontains
    have hmem : normalizedFirstToken raw ∉ allowedLabels := by
      have h' := hcontains
      simp at h'
      exact h' 
    rcases hp with rfl | rfl <;> simp [normalizeLabel, hmem] <;> decide

/-- Witness for C3: an out-of-vocabulary token normalizes to the PII
prior; and a concrete run carries an allowed label. -/
theorem classify_label_in_enum_witness :
    ((safeguardClassifyRun capW 0 { text := some "hello" }).1.safeguard_label
        = some "PASS" ∨
     (safeguardClassifyRun capW 0 { text := some "hello" }).1.safeguard_label
        = some "PII" ∨
     (safeguardClassifyRun capW 0 { text := some "hello" }).1.safeguard_label
        = some "HARMFUL" ∨
     (safeguardClassifyRun capW 0 { text := some "hello" }).1.safeguard_label
        = some "PROMPT_INJECTION") ∧
    normalizeLabel "BANANA" (orDefault (some "PII") "PASS") = "PII" :=
  ⟨(classify_label_in_enum capW 0 { text := some "hello" }).1,
   (classify_label_in_enum capW 0 { text := some "hello" }).2 "BANANA"
     (some "PII") (Or.inr rfl) (by decide)⟩

/-! ## C8: the translate/retry-translate mirror field -/

/-- **C8 counterexample.** The empty-text path of the Translate stage
writes `translated_text := ""` but leaves `last_translation`
untouched, so the two fields differ after the stage runs. -/
theorem translate_mirror_counterexample :
    ¬ ((translateRun capW 0
          { text := some " ", last_translation := some "prev" }).1.last_translation
        = (translateRun capW 0
          { text := some " ", last_translation := some "prev" }).1.translated_text) := by
  decide

/-- **C8 (amended).** After the Translate or RetryTranslate stage runs
on a state whose text is nonempty after stripping, `last_translation`
equals `translated_text`; on empty/whitespace text the stage writes
`translated_text := ""` and leaves `last_translation` unchanged. -/
theorem translate_mirror (cap : Capability) (n : Nat)
    (st : TranslationState) :
    (pyStripL (st.text.getD "").data ≠ [] →
      (translateRun cap n st).1.last_translation =
        (translateRun cap n st).1.translated_text ∧
      (retryTranslateRun cap n st).1.last_translation =
        (retryTranslateRun cap n st).1.translated_text) ∧
    (pyStripL (st.text.getD "").data = [] →
      (translateRun cap n st).1.translated_text = some "" ∧
      (translateRun cap n st).1.last_translation = st.last_translation ∧
      (retryTranslateRun cap n st).1.translated_text = some "" ∧
      (retryTranslateRun cap n st).1.last_translation = st.last_translation) := by
  constructor
  · intro h
    constructor <;> simp [translateRun, retryTranslateRun, h]
  · intro h
    refine ⟨?_, ?_, ?_, ?_⟩ <;> simp [translateRun, retryTranslateRun, h]

/-! ## C10: idempotence of the whitespace normalization

The normalized text is characterized by three properties — no tab and
no two adjacent spaces (`okSTAux`), no run of three or more newlines
(`okNLAux`), and non-whitespace edges — and each normalization stage is
the identity on texts with the corresponding property. -/

/-- No tab and no two adjacent spaces, scanning with a flag recording
whether the previous character was a space. -/
def okSTAux : Bool → List Char → Bool
  | _, [] => true
  | prev, c :: rest =>
    if c == '\t' then false
    else if c == ' ' then !prev && okSTAux true rest
    else okSTAux false rest

/-- No run of three or more newlines, scanning with the length of the
newline run in progress. -/
def okNLAux : Nat → List Char → Bool
  | _, [] => true
  | k, c :: rest =>
    if c == '\n' then decide (k < 2) && okNLAux (k + 1) rest
    else okNLAux 0 rest

/-- One-step equation for `cstAux` on a cons cell. -/
theorem cstAux_cons (b : Bool) (c : Char) (t : List Char) :
    cstAux b (c :: t) =
      if isSpaceTab c = true then
        (if b = true then cstAux true t else ' ' :: cstAux true t)
      else c :: cstAux false t := rfl

/-- One-step equation for `cnlAux` on a cons cell. -/
theorem cnlAux_cons (k : Nat) (c : Char) (t : List Char) :
    cnlAux k (c :: t) =
      if (c == '\n') = true then cnlAux (k + 1) t
      else List.replicate (min k 2) '\n' ++ c :: cnlAux 0 t := rfl

/-- Space/tab collapsing is the identity on already-collapsed lists. -/
theorem cstAux_id : ∀ (l : List Char) (b : Bool),
    okSTAux b l = true → cstAux b l = l := by
  intro l
  induction l with
  | nil => intro b _; rfl
  | cons c rest ih =>
    intro b h
    by_cases ht : c = '\t'
    · subst ht; simp [okSTAux] at h
    · by_cases hs : c = ' '
      · subst hs
        simp only [okSTAux, if_neg, if_pos, Bool.and_eq_true, Bool.not_eq_true',
          show ((' ' : Char) == '\t') = false from rfl,
          show ((' ' : Char) == ' ') = true from rfl, Bool.false_eq_true,
          if_false, if_true] at h
        obtain ⟨hb, h2⟩ := h
        subst hb
        simp only [cstAux, isSpaceTab,
          show ((' ' : Char) == ' ') = true from rfl, Bool.true_or, if_true,
          Bool.false_eq_true, if_false]
        rw [ih true h2]
      · have hst : isSpaceTab c = false := by
          simp [isSpaceTab, ht, hs]
        have hok : okSTAux false rest = true := by
          simpa [okSTAux, ht, hs] using h
        simp only [cstAux, hst, Bool.false_eq_true, if_false]
        rw [ih false hok]

/-- The output of space/tab collapsing is already collapsed. -/
theorem okSTAux_cstAux : ∀ (l : List Char) (b : Bool),
    okSTAux b (cstAux b l) = true := by
  intro l
  induction l with
  | nil => intro b; rfl
  | cons c rest ih =>
    intro b
    by_cases hc : isSpaceTab c = true
    · simp only [cstAux, hc, if_true]
      cases b with
      | true => exact ih true
      | false =>
        simpa [okSTAux] using ih true
    · have ht : ¬ c = '\t' := by
        intro hh; subst hh; simp [isSpaceTab] at hc
      have hs : ¬ c = ' ' := by
        intro hh; subst hh; simp [isSpaceTab] at hc
      simp only [cstAux, hc, Bool.false_eq_true, if_false]
      simpa [okSTAux, ht, hs] using ih false

/-- A block of newlines satisfies the space/tab property. -/
theorem okSTAux_replicate_nl : ∀ (m : Nat) (b : Bool),
    okSTAux b (List.replicate m '\n') = true := by
  intro m
  induction m with
  | zero => intro b; rfl
  | succ m ih =>
    intro b
    rw [List.replicate_succ]
    simpa [okSTAux] using ih false

/-- Prepending a nonempty newline block resets the space flag. -/
theorem okSTAux_replicate_nl_append : ∀ (m : Nat) (b : Bool) (X : List Char),
    okSTAux b (List.replicate (m + 1) '\n' ++ X) = okSTAux false X := by
  intro m
  induction m with
  | zero => intro b X; simp [okSTAux]
  | succ m ih =>
    intro b X
    rw [List.replicate_succ]
    simpa [okSTAux] using ih false X

/-- With a pending newline run, the collapsed output starts with a
newline (or is empty). -/
theorem cnlAux_head_nl : ∀ (l : List Char) (k : Nat), 1 ≤ k →
    cnlAux k l = [] ∨ ∃ t, cnlAux k l = '\n' :: t := by
  intro l
  induction l with
  | nil =>
    intro k hk
    rw [cnlAux]
    match k, hk with
    | 1, _ => right; exact ⟨_, rfl⟩
    | k + 2, _ =>
      right
      rw [show min (k + 2) 2 = 2 from by omega]
      exact ⟨_, rfl⟩
  | cons c rest ih =>
    intro k hk
    by_cases hc : c = '\n'
    · subst hc
      simp only [cnlAux, beq_self_eq_true, if_true]
      exact ih (k + 1) (by omega)
    · simp only [cnlAux, beq_iff_eq, hc, if_false]
      right
      match k, hk with
      | 1, _ => exact ⟨_, rfl⟩
      | k + 2, _ =>
        rw [show min (k + 2) 2 = 2 from by omega]
        exact ⟨_, rfl⟩

/-- The true-flag property follows from the false-flag property when
the list does not start with a space. -/
theorem okSTAux_true_of_head : ∀ (l : List Char),
    okSTAux false l = true → l.head? ≠ some ' ' → okSTAux true l = true := by
  intro l h hh
  cases l with
  | nil => rfl
  | cons c rest =>
    have hs : ¬ c = ' ' := by
      intro hc; subst hc; exact hh rfl
    by_cases ht : c = '\t'
    · subst ht; simp [okSTAux] at h
    · simpa [okSTAux, ht, hs] using h

/-- Newline collapsing preserves the space/tab property. -/
theorem okSTAux_cnlAux : ∀ (l : List Char) (k : Nat) (b : Bool),
    okSTAux b l = true →
    okSTAux (decide (k = 0) && b) (cnlAux k l) = true := by
  intro l
  induction l with
  | nil =>
    intro k b _
    rw [cnlAux]
    exact okSTAux_replicate_nl _ _
  | cons c rest ih =>
    intro k b h
    by_cases hc : c = '\n'
    · subst hc
      have h' : okSTAux false rest = true := by simpa [okSTAux] using h
      simp only [cnlAux, beq_self_eq_true, if_true]
      have base := ih (k + 1) false (h')
      cases hkb : decide (k = 0) && b with
      | false => simpa [hkb] using base
      | true =>
        rcases cnlAux_head_nl rest (k + 1) (by omega) with hnil | ⟨t, ht⟩
        · rw [hnil]; rfl
        · apply okSTAux_true_of_head
          · simpa using base
          · rw [ht]; simp
    · simp only [cnlAux, beq_iff_eq, hc, if_false]
      have goal2 : okSTAux (decide (k = 0) && b) (c :: cnlAux 0 rest) = true := by
        by_cases ht : c = '\t'
        · subst ht; simp [okSTAux] at h
        · by_cases hs : c = ' '
          · subst hs
            have hb : b = false ∧ okSTAux true rest = true := by
              constructor
              · by_contra hb
                have : b = true := by revert hb; cases b <;> simp
                subst this
                simp [okSTAux] at h
              · revert h; cases b <;> simp [okSTAux]
            obtain ⟨hb1, hb2⟩ := hb
            subst hb1
            have := ih 0 true hb2
            simpa [okSTAux] using this
          · have h' : okSTAux false rest = true := by simpa [okSTAux, ht, hs] using h
            have := ih 0 false h'
            simpa [okSTAux, ht, hs] using this
      rcases k with _ | k
      · simpa using goal2
      · rw [show min (k + 1) 2 = min k 1 + 1 from by omega,
            okSTAux_replicate_nl_append]
        simpa using goal2

/-- Newline collapsing is the identity on lists without triple
newlines, modulo re-emitting the pending run. -/
theorem cnlAux_id : ∀ (l : List Char) (k : Nat), k ≤ 2 →
    okNLAux k l = true → cnlAux k l = List.replicate k '\n' ++ l := by
  intro l
  induction l with
  | nil =>
    intro k hk _
    simp only [cnlAux]
    rw [show min k 2 = k from by omega]
    simp
  | cons c rest ih =>
    intro k hk h
    by_cases hc : c = '\n'
    · subst hc
      simp only [okNLAux, beq_self_eq_true, if_true, Bool.and_eq_true,
        decide_eq_true_eq] at h
      obtain ⟨hk2, h2⟩ := h
      simp only [cnlAux, beq_self_eq_true, if_true]
      rw [ih (k + 1) (by omega) h2, List.replicate_succ']
      simp

    · have h' : okNLAux 0 rest = true := by simpa [okNLAux, hc] using h
      simp only [cnlAux, beq_iff_eq, hc, if_false]
      rw [show min k 2 = k from by omega, ih 0 (by omega) h']
      simp

/-- An emitted newline block satisfies the newline property. -/
theorem okNL_replicate_min (k : Nat) :
    okNLAux 0 (List.replicate (min k 2) '\n') = true := by
  rcases k with _ | _ | k
  · decide
  · decide
  · rw [show min (k + 2) 2 = 2 from by omega]; decide

/-- An emitted newline block followed by a non-newline character resets
the newline count. -/
theorem okNL_replicate_append (k : Nat) (c : Char) (X : List Char)
    (hc : c ≠ '\n') :
    okNLAux 0 (List.replicate (min k 2) '\n' ++ c :: X) = okNLAux 0 X := by
  rcases k with _ | _ | k
  · simp [okNLAux, hc]
  · simp [okNLAux, hc]
  · rw [show min (k + 2) 2 = 2 from by omega]
    simp [okNLAux, hc]

/-- The output of newline collapsing has no triple newline. -/
theorem okNLAux_cnlAux : ∀ (l : List Char) (k : Nat),
    okNLAux 0 (cnlAux k l) = true := by
  intro l
  induction l with
  | nil => intro k; simp only [cnlAux]; exact okNL_replicate_min k
  | cons c rest ih =>
    intro k
    by_cases hc : c = '\n'
    · subst hc; simp only [cnlAux, beq_self_eq_true, if_true]; exact ih (k + 1)
    · simp only [cnlAux, beq_iff_eq, hc, if_false]
      rw [okNL_replicate_append k c _ hc]
      exact ih 0

/-- The first character of a stripped text is not whitespace. -/
theorem pyStripL_head_not_ws (l : List Char) (c : Char)
    (h : (pyStripL l).head? = some c) : isPyWs c = false := by
  simp only [pyStripL] at h
  rw [List.head?_reverse] at h
  have hne : (List.dropWhile isPyWs (List.dropWhile isPyWs l).reverse) ≠ [] := by
    intro hnil; rw [hnil] at h; simp at h
  rw [getLast?_dropWhile _ _ hne, List.getLast?_reverse] at h
  exact head?_dropWhile_not _ _ _ h

/-- The last character of a stripped text is not whitespace. -/
theorem pyStripL_getLast_not_ws (l : List Char) (c : Char)
    (h : (pyStripL l).getLast? = some c) : isPyWs c = false := by
  simp only [pyStripL] at h
  rw [List.getLast?_reverse] at h
  exact head?_dropWhile_not _ _ _ h

/-- Stripping is the identity on texts with non-whitespace edges. -/
theorem pyStripL_id (l : List Char)
    (h1 : ∀ c, l.head? = some c → isPyWs c = false)
    (h2 : ∀ c, l.getLast? = some c → isPyWs c = false) :
    pyStripL l = l := by
  have hd : l.dropWhile isPyWs = l := by
    cases l with
    | nil => rfl
    | cons a t => rw [List.dropWhile_cons, if_neg (by simp [h1 a rfl])]
  simp only [pyStripL, hd]
  have hd2 : l.reverse.dropWhile isPyWs = l.reverse := by
    cases hr : l.reverse with
    | nil => rfl
    | cons a t =>
      have ha : l.getLast? = some a := by
        rw [← List.head?_reverse, hr]; rfl
      rw [List.dropWhile_cons, if_neg (by simp [h2 a ha])]
  rw [hd2, List.reverse_reverse]

/-- Space/tab collapsing keeps a non-space/tab head character. -/
theorem cstAux_head? (l : List Char) (b : Bool) (c : Char)
    (h : l.head? = some c) (hst : isSpaceTab c = false) :
    (cstAux b l).head? = some c := by
  cases l with
  | nil => simp at h
  | cons a t =>
    simp only [List.head?_cons, Option.some.injEq] at h
    subst h
    simp [cstAux, hst]

/-- Space/tab collapsing keeps a non-space/tab last character. -/
theorem cstAux_getLast? : ∀ (l : List Char) (b : Bool) (c : Char),
    l.getLast? = some c → isSpaceTab c = false →
    (cstAux b l).getLast? = some c := by
  intro l
  induction l with
  | nil => intro b c h _; simp at h
  | cons a t ih =>
    intro b c h hst
    cases t with
    | nil =>
      have ha : a = c := by simpa using h
      subst ha
      simp [cstAux, hst]
    | cons a2 t2 =>
      rw [List.getLast?_cons_cons] at h
      by_cases ha : isSpaceTab a = true
      · rw [cstAux_cons, if_pos ha]
        cases b with
        | true => rw [if_pos rfl]; exact ih true c h hst
        | false =>
          rw [if_neg (by simp)]
          have hx := ih true c h hst
          have hne : cstAux true (a2 :: t2) ≠ [] := by
            intro hnil; rw [hnil] at hx; simp at hx
          rw [show (' ' :: cstAux true (a2 :: t2)) =
                [' '] ++ cstAux true (a2 :: t2) from rfl,
              List.getLast?_append_of_ne_nil _ hne]
          exact hx
      · rw [cstAux_cons, if_neg ha]
        have hx := ih false c h hst
        have hne : cstAux false (a2 :: t2) ≠ [] := by
          intro hnil; rw [hnil] at hx; simp at hx
        rw [show (a :: cstAux false (a2 :: t2)) =
              [a] ++ cstAux false (a2 :: t2) from rfl,
            List.getLast?_append_of_ne_nil _ hne]
        exact hx

/-- Newline collapsing (with no pending run) keeps a non-newline head
character. -/
theorem cnlAux_head? (l : List Char) (c : Char)
    (h : l.head? = some c) (hc : c ≠ '\n') :
    (cnlAux 0 l).head? = some c := by
  cases l with
  | nil => simp at h
  | cons a t =>
    simp only [List.head?_cons, Option.some.injEq] at h
    subst h
    simp [cnlAux, hc]

/-- Newline collapsing keeps a non-newline last character. -/
theorem cnlAux_getLast? : ∀ (l : List Char) (k : Nat) (c : Char),
    l.getLast? = some c → c ≠ '\n' → (cnlAux k l).getLast? = some c := by
  intro l
  induction l with
  | nil => intro k c h _; simp at h
  | cons a t ih =>
    intro k c h hc
    cases t with
    | nil =>
      have ha : a = c := by simpa using h
      subst ha
      rw [cnlAux_cons, if_neg (by simp [hc])]
      rw [show cnlAux 0 ([] : List Char) = [] from rfl]
      exact List.getLast?_concat _
    | cons a2 t2 =>
      rw [List.getLast?_cons_cons] at h
      by_cases ha : a = '\n'
      · subst ha
        rw [cnlAux_cons, if_pos (by simp)]
        exact ih (k + 1) c h hc
      · rw [cnlAux_cons, if_neg (by simp [ha])]
        have hx := ih 0 c h hc
        have hne : cnlAux 0 (a2 :: t2) ≠ [] := by
          intro hnil; rw [hnil] at hx; simp at hx
        have hne2 : a :: cnlAux 0 (a2 :: t2) ≠ [] := by simp
        rw [List.getLast?_append_of_ne_nil _ hne2,
            show (a :: cnlAux 0 (a2 :: t2)) =
              [a] ++ cnlAux 0 (a2 :: t2) from rfl,
            List.getLast?_append_of_ne_nil _ hne]
        exact hx

/-- Space/tab characters are Python whitespace. -/
theorem spacetab_ws {c : Char} (h : isPyWs c = false) : isSpaceTab c = false := by
  cases hst : isSpaceTab c
  · rfl
  · exfalso
    simp only [isSpaceTab, Bool.or_eq_true, beq_iff_eq] at hst
    rcases hst with h1 | h1 <;> subst h1 <;> simp [isPyWs] at h

/-- The newline character is Python whitespace. -/
theorem newline_ws {c : Char} (h : isPyWs c = false) : c ≠ '\n' := by
  intro hc; subst hc; simp [isPyWs] at h

/-- The whitespace normalization (strip, collapse spaces/tabs, collapse
newline runs) is idempotent. -/
theorem normalizeCoreL_idem (l : List Char) :
    normalizeCoreL (normalizeCoreL l) = normalizeCoreL l := by
  have hok_st_u : okSTAux false (cstAux false (pyStripL l)) = true :=
    okSTAux_cstAux _ false
  have hok_st_t : okSTAux false (normalizeCoreL l) = true := by
    simpa [normalizeCoreL] using
      okSTAux_cnlAux (cstAux false (pyStripL l)) 0 false hok_st_u
  have hok_nl_t : okNLAux 0 (normalizeCoreL l) = true :=
    okNLAux_cnlAux (cstAux false (pyStripL l)) 0
  have hstrip : pyStripL (normalizeCoreL l) = normalizeCoreL l := by
    cases hsl : pyStripL l with
    | nil =>
      rw [show normalizeCoreL l = [] from by rw [normalizeCoreL, hsl]; rfl]
      rfl
    | cons a rest =>
      have haw : isPyWs a = false :=
        pyStripL_head_not_ws l a (by rw [hsl]; rfl)
      obtain ⟨z, hz⟩ : ∃ z, (a :: rest).getLast? = some z := by
        cases rest with
        | nil => exact ⟨a, rfl⟩
        | cons b t =>
          rw [List.getLast?_cons_cons]
          have : (b :: t).getLast?.isSome = true := by
            rw [List.getLast?_isSome]; simp
          exact Option.isSome_iff_exists.mp this
      have hzw : isPyWs z = false :=
        pyStripL_getLast_not_ws l z (by rw [hsl]; exact hz)
      apply pyStripL_id
      · intro c hc
        have h1 : (cstAux false (pyStripL l)).head? = some a := by
          rw [hsl]; exact cstAux_head? _ false a rfl (spacetab_ws haw)
        have h2 : (normalizeCoreL l).head? = some a := by
          simp only [normalizeCoreL]
          exact cnlAux_head? _ a h1 (newline_ws haw)
        rw [h2] at hc
        obtain rfl : a = c := by simpa using hc
        exact haw
      · intro c hc
        have h1 : (cstAux false (pyStripL l)).getLast? = some z := by
          rw [hsl]; exact cstAux_getLast? _ false z hz (spacetab_ws hzw)
        have h2 : (normalizeCoreL l).getLast? = some z := by
          simp only [normalizeCoreL]
          exact cnlAux_getLast? _ 0 z h1 (newline_ws hzw)
        rw [h2] at hc
        obtain rfl : z = c := by simpa using hc
        exact hzw
  conv_lhs => rw [normalizeCoreL, hstrip, cstAux_id _ false hok_st_t,
    cnlAux_id _ 0 (by omega) hok_nl_t]
  simp

/-- **C10.** For every input whose whitespace-normalized form is not
truncated (length at most 10,000), the Normalize stage's text
transformation is idempotent: applying it to its own output returns
the same text (and again no truncation occurs). -/
theorem normalize_idempotent (l : List Char)
    (h : (normalizeCoreL l).length ≤ maxTextChars) :
    (normalizeTextL (normalizeTextL l).1).1 = (normalizeTextL l).1 := by
  have h1 : normalizeTextL l = (normalizeCoreL l, false) := by
    simp only [normalizeTextL]
    rw [if_neg (by omega)]
  have h2 : normalizeTextL (normalizeCoreL l) =
      (normalizeCoreL (normalizeCoreL l), false) := by
    simp only [normalizeTextL]
    rw [if_neg (by rw [normalizeCoreL_idem]; omega)]
  rw [h1, h2, normalizeCoreL_idem]

/-- Witness for C10 at a concrete short input. -/
theorem normalize_idempotent_witness :
    (normalizeTextL (normalizeTextL "  a \t b\n\n\n\nc ".data).1).1 =
      (normalizeTextL "  a \t b\n\n\n\nc ".data).1 :=
  normalize_idempotent _ (by decide)

/-- Witness for C8 (amended): both branches at concrete states. -/
theorem translate_mirror_witness :
    ((translateRun capW 0 { text := some "hi" }).1.last_translation =
      (translateRun capW 0 { text := some "hi" }).1.translated_text) ∧
    ((translateRun capW 0 { text := some " " }).1.translated_text = some "" ∧
     (translateRun capW 0 { text := some " " }).1.last_translation = none) :=
  ⟨((translate_mirror capW 0 { text := some "hi" }).1 (by decide)).1,
   ⟨((translate_mirror capW 0 { text := some " " }).2 (by decide)).1,
    ((translate_mirror capW 0 { text := some " " }).2 (by decide)).2.1⟩⟩

/-- The normalize stage writes the normalized text into `text`. -/
theorem normalizeRun_text (cap : Capability) (n : Nat)
    (st : TranslationState) :
    (normalizeRun cap n st).1.text =
      some ⟨(normalizeTextL (st.text.getD "").data).1⟩ := rfl

/-- The decision stage on a PII label: blocked, with the catalog's PII
message. -/
theorem decision_pii (st : TranslationState)
    (h : st.safeguard_label = some "PII") :
    safeguardDecisionRun st =
      { st with safeguard_passed := some false,
                error_message := some piiMessage } := by
  have hl : pyStrip (orDefault (some "PII") "PASS") = "PII" := by decide
  simp only [safeguardDecisionRun, h, hl]
  rw [if_neg (by decide)]
  rfl

/-- Router A sends a PII-labelled state to the fail stage. -/
theorem routeA_pii (st : TranslationState)
    (h : st.safeguard_label = some "PII") :
    routeAfterSafeguard st = "safeguard_fail" := by
  simp only [routeAfterSafeguard, h]
  decide

/-- The fail-response stage on a blocked PII state. -/
theorem fail_pii (st : TranslationState)
    (h1 : st.safeguard_label = some "PII")
    (h2 : st.safeguard_passed = some false)
    (h3 : st.error_message = some piiMessage) :
    safeguardFailRun st =
      { st with translated_text := some piiMessage,
                status := some "BLOCKED", blocked_reason := some "PII",
                audit_log := some ⟨"SAFEGUARD_BLOCK", "PII",
                  (st.text.getD "").data.length⟩ } := by
  have hl : pyStrip (orDefault (some "PII") "UNKNOWN") = "PII" := by decide
  simp only [safeguardFailRun, h1, h2, h3, hl, Option.getD_some]
  rw [if_neg (by decide), if_pos (by decide)]

/-- The response stage on a state carrying the PII error message. -/
theorem response_error_pii (st : TranslationState)
    (h : st.error_message = some piiMessage) :
    responseRun st =
      { st with translated_text := some piiMessage,
                status := some "ERROR", success := some false } := by
  simp only [responseRun, h, Option.getD_some]
  rw [if_pos (by decide)]

/-- A run already at END stays put. -/
theorem runTrace_end (cap : Capability) (fuel : Nat) (gs : GState)
    (h : gs.node = NodeTag.endNode) : runTrace cap fuel gs = ([], gs) := by
  cases fuel with
  | zero => rfl
  | succ f => rw [runTrace, if_pos h]

/-- Unfolding one execution step of the bounded run. -/
theorem runTrace_cons (cap : Capability) (fuel : Nat) (gs gs' : GState)
    (h : gs.node ≠ NodeTag.endNode) (hstep : step cap gs = gs') :
    runTrace cap (fuel + 1) gs =
      (gs.node :: (runTrace cap fuel gs').1, (runTrace cap fuel gs').2) := by
  rw [runTrace, if_neg h, hstep]

/-- **C7 (amended).** For every run whose normalized text contains the
token `user@example.com` not immediately followed by a word character:
the run passes through the fail stage and ends with `status = ERROR`,
`error_message` equal to the catalog's PII message, and
`translated_text` equal to that same message. -/
theorem blocked_run (cap : Capability) (st : TranslationState)
    (h : ∃ pre post,
        (normalizeTextL (st.text.getD "").data).1 =
          pre ++ ("user@example.com".data ++ post) ∧
        ∀ c, post.head? = some c → isWordChar c = false) :
    (runGraph cap st).2.s.status = some "ERROR" ∧
    (runGraph cap st).2.s.error_message = some piiMessage ∧
    (runGraph cap st).2.s.translated_text = some piiMessage ∧
    NodeTag.safeguardFail ∈ (runGraph cap st).1 := by
  obtain ⟨pre, post, hnt, hpost⟩ := h
  have hemail : emailSearchL (normalizeTextL (st.text.getD "").data).1 =
      true := by
    rw [hnt]
    exact email_token_match pre post hpost
  have hforced : forcedPiiL (normalizeTextL (st.text.getD "").data).1 =
      true := by
    simp [forcedPiiL, hemail]
  set st1 := (normalizeRun cap 0 st).1 with hst1
  set n1 := (normalizeRun cap 0 st).2 with hn1
  set st2 : TranslationState := { st1 with safeguard_label := some "PII" }
    with hst2
  set st3 : TranslationState :=
    { st2 with safeguard_passed := some false,
               error_message := some piiMessage } with hst3
  set st4 : TranslationState :=
    { st3 with translated_text := some piiMessage, status := some "BLOCKED",
               blocked_reason := some "PII",
               audit_log := some ⟨"SAFEGUARD_BLOCK", "PII",
                 (st3.text.getD "").data.length⟩ } with hst4
  set st5 : TranslationState :=
    { st4 with translated_text := some piiMessage, status := some "ERROR",
               success := some false } with hst5
  have hcl : safeguardClassifyRun cap n1 st1 = (st2, n1) := by
    rw [hst2]
    apply classify_forced
    rw [hst1, normalizeRun_text cap 0 st]
    exact hforced
  have hlbl2 : st2.safeguard_label = some "PII" := by rw [hst2]
  have hlbl3 : st3.safeguard_label = some "PII" := by
    rw [hst3]
  have hpass3 : st3.safeguard_passed = some false := by rw [hst3]
  have herr3 : st3.error_message = some piiMessage := by rw [hst3]
  have herr4 : st4.error_message = some piiMessage := by
    rw [hst4]
  have hs1 : step cap (initGState st) =
      ⟨NodeTag.safeguardClassify, st1, n1⟩ := by
    rw [show initGState st = (⟨NodeTag.normalize, st, 0⟩ : GState) from rfl,
      step_normalize, ← hst1, ← hn1]
  have hs2 : step cap ⟨NodeTag.safeguardClassify, st1, n1⟩ =
      ⟨NodeTag.safeguardDecision, st2, n1⟩ := by
    rw [step_classify, hcl]
  have hdec : safeguardDecisionRun st2 = st3 := by
    rw [decision_pii st2 hlbl2, hst3]
  have hs3 : step cap ⟨NodeTag.safeguardDecision, st2, n1⟩ =
      ⟨NodeTag.safeguardFail, st3, n1⟩ := by
    rw [step_decision, hdec, routeA_pii st3 hlbl3, if_neg (by decide)]
  have hfail : safeguardFailRun st3 = st4 := by
    rw [fail_pii st3 hlbl3 hpass3 herr3, hst4]
  have hs4 : step cap ⟨NodeTag.safeguardFail, st3, n1⟩ =
      ⟨NodeTag.response, st4, n1⟩ := by
    rw [step_fail, hfail]
  have hresp : responseRun st4 = st5 := by
    rw [response_error_pii st4 herr4, hst5]
  have hs5 : step cap ⟨NodeTag.response, st4, n1⟩ =
      ⟨NodeTag.endNode, st5, n1⟩ := by
    rw [step_response, hresp]
  have hfuel : graphFuel st = (5 + 3 * (effMaxI st).toNat) + 5 := by
    simp only [graphFuel]; omega
  have hrun : runTrace cap (graphFuel st) (initGState st) =
      ([NodeTag.normalize, NodeTag.safeguardClassify,
        NodeTag.safeguardDecision, NodeTag.safeguardFail, NodeTag.response],
       ⟨NodeTag.endNode, st5, n1⟩) := by
    rw [hfuel]
    rw [show (5 + 3 * (effMaxI st).toNat) + 5 =
        ((5 + 3 * (effMaxI st).toNat) + 4) + 1 from rfl,
      runTrace_cons cap _ _ _ (by simp [initGState]) hs1]
    rw [show (5 + 3 * (effMaxI st).toNat) + 4 =
        ((5 + 3 * (effMaxI st).toNat) + 3) + 1 from rfl,
      runTrace_cons cap _ _ _ (by simp) hs2]
    rw [show (5 + 3 * (effMaxI st).toNat) + 3 =
        ((5 + 3 * (effMaxI st).toNat) + 2) + 1 from rfl,
      runTrace_cons cap _ _ _ (by simp) hs3]
    rw [show (5 + 3 * (effMaxI st).toNat) + 2 =
        ((5 + 3 * (effMaxI st).toNat) + 1) + 1 from rfl,
      runTrace_cons cap _ _ _ (by simp) hs4]
    rw [show (5 + 3 * (effMaxI st).toNat) + 1 =
        (5 + 3 * (effMaxI st).toNat) + 1 from rfl,
      runTrace_cons cap _ _ _ (by simp) hs5]
    rw [runTrace_end cap _ _ rfl]
    rfl
  rw [show runGraph cap st = runTrace cap (graphFuel st) (initGState st)
      from rfl, hrun]
  refine ⟨?_, ?_, ?_, ?_⟩
  · rw [hst5]
  · exact herr4
  · rw [hst5]
  · simp

/-- A capability for the C7 counterexample: the detector yields nothing,
and the generator answers PASS to classification, a translation, then
YES to quality check. -/
def capC7 : Capability :=
  ⟨fun _ => none,
   fun n => if n = 0 then "PASS" else if n = 1 then "hola" else "YES"⟩

/-- The C7 counterexample input state. -/
def stC7 : TranslationState :=
  { text := some "please translate user@example.com1",
    source_language := some "en", target_language := some "ko",
    retry_count := some 0, max_retry_count := some 1 }

/-- **C7 counterexample.** The input text contains the token
`user@example.com` (followed by the digit `1`), yet the run ends with
`status = OK`: the email pattern's trailing word boundary rejects a
top-level domain followed by a word character, so the forced-PII branch
does not fire and the run completes the normal translation path. -/
theorem blocked_run_counterexample :
    infixCheck "user@example.com".data (stC7.text.getD "").data = true ∧
    (runGraph capC7 stC7).2.s.status = some "OK" := by
  constructor
  · decide
  · decide

/-- The C7 witness input state. -/
def stW7 : TranslationState := { text := some "mail user@example.com now" }

/-- **C7 witness.** A concrete run on text containing `user@example.com`
followed by a space ends blocked: `status = ERROR` and both
`error_message` and `translated_text` equal the catalog's PII message. -/
theorem blocked_run_witness :
    (runGraph capW stW7).2.s.status = some "ERROR" ∧
    (runGraph capW stW7).2.s.error_message = some piiMessage ∧
    (runGraph capW stW7).2.s.translated_text = some piiMessage := by
  have h := blocked_run capW stW7
    ⟨"mail ".data, " now".data, by decide,
     by
      intro c hc
      rw [show (" now".data).head? = some ' ' from rfl] at hc
      cases hc
      decide⟩
  exact ⟨h.1, h.2.1, h.2.2.1⟩

end Firstsession
